import Mathlib

/-!
# ecs-exporter: the collection pipeline of `cmd/ecs-exporter/main.go`

A shallow embedding of the exporter's collection pipeline (`Collect`, `worker`,
`getClusters`, `getServices`) together with theorems about it.

Modelling conventions.

* Go `string` is `String`, `*string` read through `aws.StringValue` is
  `Option String` (`nil` reads as `""`), `int64` is `Int`, a slice is a `List`
  (a `nil` slice is `[]`), `error` is `Option Err` (`nil` is `none`).
* The AWS SDK client `*ecs.ECS` is a record of four functions from a request to
  the pair `(response, error)` the SDK call returns.
* `float64 (x)` of an integer `x` is kept as the integer `x`: a sample's value is
  the integer handed to `float64`.
* The unbounded `for { ... }` listing loops take a fuel argument counting the
  list calls they may issue; `none` stands for a loop that has not finished.
* The package variable `maxResults` (`10` in the source, never reassigned) is a
  parameter of the functions that read it, so that a property can be stated for
  every page bound.  It is a `Nat`; for `0` the Go division in the batching loop
  panics, and the theorems below are stated for `1 ≤ maxResults`.
* Goroutines.  The batch goroutines of `getServices` are modelled by the queue
  of sends each of them performs, and an explicit schedule chooses, at each
  receive of the join loop, which ready sender is served.  The per-cluster
  goroutines of `worker` and the per-tenant goroutines of `Collect` write to the
  metric channel; their samples are listed in spawn order, and properties of
  the output are stated up to order.
-/

namespace EcsExporter

/-! ## Data model -/

/-- Go `error` values, identified by their message. -/
abbrev Err := String

/-- Reading of `aws.StringValue`: a `nil` pointer reads as the empty string. -/
def StringValue (s : Option String) : String := s.getD ""

/-- Reading of `aws.Int64Value`: a `nil` pointer reads as `0`. -/
def Int64Value (n : Option Int) : Int := n.getD 0

/-- The package variable `maxResults` (line 23). -/
def maxResults : Nat := 10

/-- The package variable `namespace` (line 24). -/
def namespace_ : String := "ecs"

/-- Descriptor `prometheus.Desc`: fully qualified name, help text and the names
of its variable labels. -/
structure Desc where
  fqName : String
  help : String
  variableLabels : List String
deriving DecidableEq, Repr

/-- Library function `prometheus.BuildFQName`. -/
def BuildFQName (ns subsystem name : String) : String :=
  if name = "" then ""
  else if ns ≠ "" ∧ subsystem ≠ "" then ns ++ "_" ++ subsystem ++ "_" ++ name
  else if ns ≠ "" then ns ++ "_" ++ name
  else if subsystem ≠ "" then subsystem ++ "_" ++ name
  else name

/-- Library function `prometheus.NewDesc` (without constant labels). -/
def NewDesc (fqName help : String) (variableLabels : List String) : Desc :=
  ⟨fqName, help, variableLabels⟩

/-- Descriptor `up` (lines 29-34). -/
def up : Desc :=
  NewDesc (BuildFQName namespace_ "" "up")
    "Was the last query of ecs successful." ["region", "island"]

/-- Descriptor `clusterCount` (lines 35-40). -/
def clusterCount : Desc :=
  NewDesc (BuildFQName namespace_ "" "clusters_total")
    "The total number of ecs clusters." ["region", "island"]

/-- Descriptor `serviceCount` (lines 41-46). -/
def serviceCount : Desc :=
  NewDesc (BuildFQName namespace_ "" "services_total")
    "The total number of services." ["region", "island", "ecsCluster"]

/-- Descriptor `serviceDesired` (lines 47-52). -/
def serviceDesired : Desc :=
  NewDesc (BuildFQName namespace_ "" "service_desired_tasks_total")
    "The number of tasks to have running." ["region", "island", "ecsCluster", "service"]

/-- Descriptor `servicePending` (lines 53-58). -/
def servicePending : Desc :=
  NewDesc (BuildFQName namespace_ "" "service_pending_tasks_total")
    "The number of tasks that are in the PENDING state."
    ["region", "island", "ecsCluster", "service"]

/-- Descriptor `serviceRunning` (lines 59-64). -/
def serviceRunning : Desc :=
  NewDesc (BuildFQName namespace_ "" "service_running_tasks_total")
    "The number of tasks that are in the RUNNING state."
    ["region", "island", "ecsCluster", "service"]

/-- Descriptor `serviceDeployments` (lines 65-70). -/
def serviceDeployments : Desc :=
  NewDesc (BuildFQName namespace_ "" "service_deployments_total")
    "The number of deployments a service has."
    ["region", "island", "ecsCluster", "service"]

/-- A constant gauge sample as built by `prometheus.MustNewConstMetric (desc,
prometheus.GaugeValue, value, labelValues...)`. -/
structure Metric where
  desc : Desc
  value : Int
  labelValues : List String
deriving DecidableEq, Repr

/-- Library function `prometheus.MustNewConstMetric` at `GaugeValue`.  The
library panics when the number of label values differs from the number of
variable labels of the descriptor; the two numbers agree for every sample that
`worker` builds, as shown with its sample set below. -/
def MustNewConstMetric (desc : Desc) (value : Int) (labelValues : List String) : Metric :=
  ⟨desc, value, labelValues⟩

/-- Type `Config` (lines 78-80): the `roles` map from island to role, as the list
of its entries in iteration order. -/
structure Config where
  Roles : List (String × String)
deriving DecidableEq, Repr

/-- Type `ECSCluster` (lines 82-85). -/
structure ECSCluster where
  ID : String
  Name : String
deriving DecidableEq, Repr

/-- Type `ECSService` (lines 86-89). -/
structure ECSService where
  ID : String
  Name : String
  Deployments : Int
  DesiredTasks : Int
  RunningTasks : Int
  PendingTasks : Int
deriving DecidableEq, Repr

/-- Type `ecsResult` (lines 90-93). -/
structure ecsResult where
  result : List ECSService
  err : Option Err
deriving DecidableEq, Repr

/-- Type `Exporter` (lines 94-104). -/
structure Exporter where
  config : Config
  region : String
  up : Desc
  clusterCount : Desc
  serviceCount : Desc
  serviceDesired : Desc
  servicePending : Desc
  serviceRunning : Desc
  serviceDeployments : Desc
deriving DecidableEq, Repr

/-- Function `NewExporter` (lines 106-118); its error is always `nil`. -/
def NewExporter (region : String) (cfg : Config) : Exporter :=
  { config := cfg, region := region, up := up, clusterCount := clusterCount,
    serviceCount := serviceCount, serviceDesired := serviceDesired,
    servicePending := servicePending, serviceRunning := serviceRunning,
    serviceDeployments := serviceDeployments }

/-- Method `Describe` (lines 119-127): the descriptors sent, in order. -/
def Describe (_e : Exporter) : List Desc :=
  [up, clusterCount, serviceCount, serviceDesired, servicePending, serviceRunning,
    serviceDeployments]

/-! ## The remote inventory API (AWS SDK `ecs` package) -/

/-- SDK type `ecs.ListClustersInput`. -/
structure ListClustersInput where
  MaxResults : Nat
  NextToken : Option String
deriving DecidableEq, Repr

/-- SDK type `ecs.ListClustersOutput`. -/
structure ListClustersOutput where
  ClusterArns : List String
  NextToken : Option String
deriving DecidableEq, Repr

/-- SDK type `ecs.DescribeClustersInput`. -/
structure DescribeClustersInput where
  Clusters : List String
deriving DecidableEq, Repr

/-- SDK type `ecs.Cluster`, the two fields the exporter reads. -/
structure Cluster where
  ClusterArn : Option String
  ClusterName : Option String
deriving DecidableEq, Repr

/-- SDK type `ecs.DescribeClustersOutput`. -/
structure DescribeClustersOutput where
  Clusters : List Cluster
deriving DecidableEq, Repr

/-- SDK type `ecs.ListServicesInput`. -/
structure ListServicesInput where
  Cluster : String
  MaxResults : Nat
  NextToken : Option String
deriving DecidableEq, Repr

/-- SDK type `ecs.ListServicesOutput`. -/
structure ListServicesOutput where
  ServiceArns : List String
  NextToken : Option String
deriving DecidableEq, Repr

/-- SDK type `ecs.DescribeServicesInput`. -/
structure DescribeServicesInput where
  Services : List String
  Cluster : String
deriving DecidableEq, Repr

/-- SDK type `ecs.Deployment`; the exporter only counts these records. -/
structure Deployment where
  Id : Option String
deriving DecidableEq, Repr

/-- SDK type `ecs.Service`, the fields the exporter reads. -/
structure Service where
  ServiceArn : Option String
  ServiceName : Option String
  DesiredCount : Option Int
  RunningCount : Option Int
  PendingCount : Option Int
  Deployments : List Deployment
deriving DecidableEq, Repr

/-- SDK type `ecs.DescribeServicesOutput`. -/
structure DescribeServicesOutput where
  Services : List Service
deriving DecidableEq, Repr

/-- The SDK client `*ecs.ECS`: each operation returns the response value and the
error of the Go call.  (The SDK returns a non-nil response pointer also when the
error is non-nil.) -/
structure ECS where
  ListClusters : ListClustersInput → ListClustersOutput × Option Err
  DescribeClusters : DescribeClustersInput → DescribeClustersOutput × Option Err
  ListServices : ListServicesInput → ListServicesOutput × Option Err
  DescribeServices : DescribeServicesInput → DescribeServicesOutput × Option Err

/-- SDK `session.Session` as far as the exporter uses it: `ecs.New (ses)` is
`ecsNew none`, and `ecs.New (ses, &aws.Config{Credentials:
stscreds.NewCredentials (ses, role)})` is `ecsNew (some role)`. -/
structure Session where
  ecsNew : Option String → ECS

/-- The SDK entry point `session.New` given the region; `none` is a nil session. -/
structure AWS where
  sessionNew : String → Option Session

/-! ## Client factory -/

/-- Method `getSTSClient` (lines 184-192). -/
def getSTSClient (e : Exporter) (aws : AWS) (role : String) : Except Err ECS :=
  match aws.sessionNew e.region with
  | none => .error "error creating aws session"
  | some ses => .ok (ses.ecsNew (some role))

/-- Method `getClient` (lines 194-201). -/
def getClient (e : Exporter) (aws : AWS) (_role : String) : Except Err ECS :=
  match aws.sessionNew e.region with
  | none => .error "error creating aws session"
  | some ses => .ok (ses.ecsNew none)

/-! ## Cluster enumerator -/

/-- The loop condition `resp.NextToken == nil || aws.StringValue (resp.NextToken)
== ""` of lines 217 and 256. -/
def lastPage (nextToken : Option String) : Bool :=
  nextToken.isNone || StringValue nextToken == ""

/-- The listing loop of `getClusters` (lines 208-221).  The state is the request
parameters and the identifiers accumulated; the result carries the list calls
issued so far (most recent last) and either the error of the failing call or the
accumulated identifiers. -/
def listClustersLoop (client : ECS) :
    Nat → ListClustersInput → List String → List ListClustersInput →
      Option (List ListClustersInput × Except Err (List String))
  | 0, _, _, _ => none
  | fuel + 1, listClusterParams, clusterArns, calls =>
    let (resp, err) := client.ListClusters listClusterParams
    let calls := calls ++ [listClusterParams]
    match err with
    | some err => some (calls, .error err)
    | none =>
      let clusterArns := clusterArns ++ resp.ClusterArns
      if lastPage resp.NextToken then some (calls, .ok clusterArns)
      else listClustersLoop client fuel
        { listClusterParams with NextToken := resp.NextToken } clusterArns calls

/-- A run of `getClusters`: the list and describe calls issued and the value
returned (`.error err` for `return nil, err`). -/
structure GetClustersRun where
  listCalls : List ListClustersInput
  describeCalls : List DescribeClustersInput
  ret : Except Err (List ECSCluster)

/-- Method `getClusters` (lines 202-238). -/
def getClusters (client : ECS) (maxResults : Nat) (fuel : Nat) : Option GetClustersRun :=
  let listClusterParams : ListClustersInput := { MaxResults := maxResults, NextToken := none }
  match listClustersLoop client fuel listClusterParams [] [] with
  | none => none
  | some (calls, .error err) => some ⟨calls, [], .error err⟩
  | some (calls, .ok clusterArns) =>
    let describeClusterParams : DescribeClustersInput := { Clusters := clusterArns }
    let (resp, err) := client.DescribeClusters describeClusterParams
    match err with
    | some err => some ⟨calls, [describeClusterParams], .error err⟩
    | none =>
      let clusters := resp.Clusters.map fun c =>
        ({ ID := StringValue c.ClusterArn, Name := StringValue c.ClusterName } : ECSCluster)
      some ⟨calls, [describeClusterParams], .ok clusters⟩

/-! ## Service enumerator -/

/-- The listing loop of `getServices` (lines 247-260), with the same state and
result as `listClustersLoop`. -/
def listServicesLoop (client : ECS) :
    Nat → ListServicesInput → List String → List ListServicesInput →
      Option (List ListServicesInput × Except Err (List String))
  | 0, _, _, _ => none
  | fuel + 1, listServicesParams, serviceArns, calls =>
    let (resp, err) := client.ListServices listServicesParams
    let calls := calls ++ [listServicesParams]
    match err with
    | some err => some (calls, .error err)
    | none =>
      let serviceArns := serviceArns ++ resp.ServiceArns
      if lastPage resp.NextToken then some (calls, .ok serviceArns)
      else listServicesLoop client fuel
        { listServicesParams with NextToken := resp.NextToken } serviceArns calls

/-- Go slice expression `s[lo:hi]` for `lo ≤ hi ≤ len (s)`. -/
def slice {α : Type} (s : List α) (lo hi : Nat) : List α := (s.take hi).drop lo

/-- The batching loop of `getServices` (lines 262-274 and 298-299): the blocks
handed to the goroutines, in dispatch order.  The first argument is the number of
iterations the loop condition `i <= len (serviceArns) / int (maxResults)` still
allows, the second is `i`. -/
def blocksLoop (serviceArns : List String) (maxResults : Nat) : Nat → Nat → List (List String)
  | 0, _ => []
  | iters + 1, i =>
    let pos := i * maxResults
    if pos ≥ serviceArns.length then []
    else
      let end_ := pos + maxResults
      let servicesBlock :=
        if end_ > serviceArns.length then serviceArns.drop pos
        else slice serviceArns pos end_
      servicesBlock :: blocksLoop serviceArns maxResults iters (i + 1)

/-- The blocks dispatched by `getServices`: the loop runs `i` from `0` while
`i <= len (serviceArns) / int (maxResults)`. -/
def serviceBlocks (serviceArns : List String) (maxResults : Nat) : List (List String) :=
  blocksLoop serviceArns maxResults (serviceArns.length / maxResults + 1) 0

/-- The conversion of one described service (lines 286-294). -/
def toECSService (s : Service) : ECSService :=
  { ID := StringValue s.ServiceArn
    Name := StringValue s.ServiceName
    DesiredTasks := Int64Value s.DesiredCount
    RunningTasks := Int64Value s.RunningCount
    PendingTasks := Int64Value s.PendingCount
    Deployments := (s.Deployments.length : Int) }

/-- The batch goroutine (lines 275-298): the results it sends on `resC`, in
program order.  After the send of the error result there is no `return`, so the
goroutine goes on to convert `resp.Services` and to send a second result. -/
def describeTask (client : ECS) (cluster : ECSCluster) (block : List String) : List ecsResult :=
  let describeServicesParams : DescribeServicesInput :=
    { Services := block, Cluster := cluster.ID }
  let (resp, err) := client.DescribeServices describeServicesParams
  let onError : List ecsResult :=
    match err with
    | some err => [⟨[], some err⟩]
    | none => []
  let services := resp.Services.map toECSService
  onError ++ [⟨services, none⟩]

/-- One receive `<-resC` on the unbuffered channel.  Each goroutine is
represented by the queue of results it has yet to send; the receive is served
by the `k`-th goroutine that has a send pending (the last one, when fewer are
pending), and blocks (`none`) when no goroutine has one. -/
def recv : Nat → List (List ecsResult) → Option (ecsResult × List (List ecsResult))
  | _, [] => none
  | k, [] :: qs =>
    match recv k qs with
    | some (res, qs) => some (res, [] :: qs)
    | none => none
  | 0, (r :: q) :: qs => some (r, q :: qs)
  | k + 1, (r :: q) :: qs =>
    match recv k qs with
    | some (res, qs) => some (res, (r :: q) :: qs)
    | none => some (r, q :: qs)

/-- The results the channel `resC` delivers to its first `n` receives, in arrival
order.  The head of the schedule chooses the sender of the next receive; the
sequence stops early when no goroutine has a send pending. -/
def arrivalOrder : Nat → List Nat → List (List ecsResult) → List ecsResult
  | 0, _, _ => []
  | n + 1, sched, queues =>
    match recv (sched.headD 0) queues with
    | none => []
    | some (res, queues) => res :: arrivalOrder n sched.tail queues

/-- The join loop of `getServices` (lines 300-308).  The first argument is the
number of receives left (`counter - i`), the second the results `resC` delivers
from now on, the third the variable `services`.  `none` is a receive that blocks
for ever. -/
def joinLoop : Nat → List ecsResult → List ECSService → Option (List ECSService × Option Err)
  | 0, _, services => some (services, none)
  | _ + 1, [], _ => none
  | n + 1, res :: rest, services =>
    match res.err with
    | some err => some (services, some err)
    | none => joinLoop n rest (services ++ res.result)

/-- A run of `getServices`: the list and describe calls issued, the value of
`counter` after the batching loop, the sends every batch goroutine performs, and
the pair `(services, err)` returned. -/
structure GetServicesRun where
  listCalls : List ListServicesInput
  describeCalls : List DescribeServicesInput
  counter : Nat
  sends : List (List ecsResult)
  services : List ECSService
  err : Option Err

/-- Method `getServices` (lines 239-309). -/
def getServices (client : ECS) (maxResults : Nat) (cluster : ECSCluster) (fuel : Nat)
    (sched : List Nat) : Option GetServicesRun :=
  let listServicesParams : ListServicesInput :=
    { Cluster := cluster.ID, MaxResults := maxResults, NextToken := none }
  match listServicesLoop client fuel listServicesParams [] [] with
  | none => none
  | some (calls, .error err) => some ⟨calls, [], 0, [], [], some err⟩
  | some (calls, .ok serviceArns) =>
    let blocks := serviceBlocks serviceArns maxResults
    let counter := blocks.length
    let describeCalls := blocks.map fun block =>
      ({ Services := block, Cluster := cluster.ID } : DescribeServicesInput)
    let sends := blocks.map (describeTask client cluster)
    match joinLoop counter (arrivalOrder counter sched sends) [] with
    | none => none
    | some (services, err) => some ⟨calls, describeCalls, counter, sends, services, err⟩

/-! ## Tenant worker -/

/-- The four per-service samples (lines 161-164). -/
def serviceMetrics (e : Exporter) (island : String) (cluster : ECSCluster)
    (service : ECSService) : List Metric :=
  [ MustNewConstMetric serviceDesired service.DesiredTasks
      [e.region, island, cluster.Name, service.Name],
    MustNewConstMetric servicePending service.PendingTasks
      [e.region, island, cluster.Name, service.Name],
    MustNewConstMetric serviceRunning service.RunningTasks
      [e.region, island, cluster.Name, service.Name],
    MustNewConstMetric serviceDeployments service.Deployments
      [e.region, island, cluster.Name, service.Name] ]

/-- The per-cluster goroutine of `worker` (lines 152-166): the samples it sends
on `ch`; `none` when its `getServices` call does not return. -/
def clusterTask (e : Exporter) (client : ECS) (maxResults fuel : Nat) (sched : List Nat)
    (island : String) (cluster : ECSCluster) : Option (List Metric) :=
  match getServices client maxResults cluster fuel sched with
  | none => none
  | some run =>
    match run.err with
    | some _ => some []
    | none =>
      some (MustNewConstMetric serviceCount (run.services.length : Int)
              [e.region, island, cluster.Name]
            :: run.services.flatMap (serviceMetrics e island cluster))

/-- The join `sWg.Wait ()`: all goroutines have returned, and the samples they
sent, listed goroutine by goroutine. -/
def waitAll : List (Option (List Metric)) → Option (List Metric)
  | [] => some []
  | none :: _ => none
  | some ms :: rest =>
    match waitAll rest with
    | none => none
    | some out => some (ms ++ out)

/-- A run of `worker`: the samples sent on `ch` and whether `log.Fatalf`
terminated the process. -/
structure WorkerRun where
  sent : List Metric
  exited : Bool
deriving DecidableEq, Repr

/-- Method `worker` (lines 128-169).  `sched` gives the schedule of the join
loop of each cluster. -/
def worker (e : Exporter) (aws : AWS) (maxResults fuel : Nat) (sched : ECSCluster → List Nat)
    (role island : String) : Option WorkerRun :=
  let client :=
    if role == "" && island == "" then getClient e aws role else getSTSClient e aws role
  match client with
  | .error _ => some ⟨[], false⟩
  | .ok client =>
    match getClusters client maxResults fuel with
    | none => none
    | some run =>
      match run.ret with
      | .error _ => some ⟨[MustNewConstMetric up 0 [e.region, island]], true⟩
      | .ok clusters =>
        match waitAll (clusters.map fun cluster =>
            clusterTask e client maxResults fuel (sched cluster) island cluster) with
        | none => none
        | some out =>
          some ⟨MustNewConstMetric up 1 [e.region, island]
                :: MustNewConstMetric clusterCount (clusters.length : Int) [e.region, island]
                :: out, false⟩

/-! ## Collection orchestrator -/

/-- The map `islands` of `Collect` (lines 171-174), as its list of
`(island, role)` entries. -/
def islands (e : Exporter) : List (String × String) :=
  if e.config.Roles.length ≠ 0 then e.config.Roles else [("", "")]

/-- The launch loop of `Collect` (lines 176-181) over the entries `(k, v)` of
`islands` still to visit: every iteration executes one
`go e.worker (role, island, &wg, ch)` with `island := k` and `role := v`.  The
second argument and the result are the workers started so far, as their
arguments `(role, island)` in start order. -/
def launchLoop : List (String × String) → List (String × String) → List (String × String)
  | [], started => started
  | (k, v) :: rest, started =>
    let island := k
    let role := v
    launchLoop rest (started ++ [(role, island)])

/-- The workers started by `Collect`: the launch loop run over `islands`. -/
def startedWorkers (e : Exporter) : List (String × String) :=
  launchLoop (islands e) []

/-- The workers of `Collect`, scheduled one after the other in spawn order:
the samples they send, up to the first worker that ends the process through
`log.Fatalf`.  `none` when a worker does not return. -/
def runWorkers (w : String → String → Option WorkerRun) :
    List (String × String) → Option WorkerRun
  | [] => some ⟨[], false⟩
  | (role, island) :: rest =>
    match w role island with
    | none => none
    | some r =>
      if r.exited then some r
      else
        match runWorkers w rest with
        | none => none
        | some r2 => some ⟨r.sent ++ r2.sent, r2.exited⟩

/-- Method `Collect` (lines 170-183): the samples sent on `ch` and whether the
process was terminated.  `sched` gives the join schedule per island and
cluster. -/
def Collect (e : Exporter) (aws : AWS) (maxResults fuel : Nat)
    (sched : String → ECSCluster → List Nat) : Option WorkerRun :=
  runWorkers (fun role island => worker e aws maxResults fuel (sched island) role island)
    (startedWorkers e)

/-! ## Remote behaviours referred to by the properties -/

/-- What a list call answers for a cursor: identifiers, next cursor, error. -/
abbrev Pager := Option String → List String × Option String × Option Err

/-- The answers of `ListClusters` under page bound `N`, by cursor. -/
def clusterPages (client : ECS) (N : Nat) : Pager := fun tok =>
  let out := client.ListClusters { MaxResults := N, NextToken := tok }
  (out.1.ClusterArns, out.1.NextToken, out.2)

/-- The answers of `ListServices` for a cluster under page bound `N`, by cursor. -/
def servicePages (client : ECS) (cluster : String) (N : Nat) : Pager := fun tok =>
  let out := client.ListServices { Cluster := cluster, MaxResults := N, NextToken := tok }
  (out.1.ServiceArns, out.1.NextToken, out.2)

/-- `ServesPages page N tok ids pages`: asked with cursor `tok`, the remote serves
the identifiers `ids` in the consecutive pages `pages`, each of at most `N`
identifiers, without error, and returns a non-empty cursor exactly when
identifiers remain after the page. -/
inductive ServesPages (page : Pager) (N : Nat) :
    Option String → List String → List (List String) → Prop
  | last (tok : Option String) (rest : List String) (next : Option String) :
      rest.length ≤ N → page tok = (rest, next, none) → lastPage next = true →
      ServesPages page N tok rest [rest]
  | more (tok : Option String) (p rest : List String) (t : String)
      (pages : List (List String)) :
      p.length ≤ N → rest ≠ [] → t ≠ "" → page tok = (p, some t, none) →
      ServesPages page N (some t) rest pages →
      ServesPages page N tok (p ++ rest) (p :: pages)

/-- A remote with no cluster and no service. -/
def emptyRemote : ECS where
  ListClusters := fun _ => (⟨[], none⟩, none)
  DescribeClusters := fun _ => (⟨[]⟩, none)
  ListServices := fun _ => (⟨[], none⟩, none)
  DescribeServices := fun _ => (⟨[]⟩, none)

/-- A remote that lists the identifiers `a`, `b`, `c` in two pages (page bound
`2`), for clusters and for services alike. -/
def threeIdRemote : ECS where
  ListClusters := fun i =>
    if i.NextToken = some "t" then (⟨["c"], none⟩, none) else (⟨["a", "b"], some "t"⟩, none)
  DescribeClusters := fun i => (⟨i.Clusters.map fun a => ⟨some a, some a⟩⟩, none)
  ListServices := fun i =>
    if i.NextToken = some "t" then (⟨["c"], none⟩, none) else (⟨["a", "b"], some "t"⟩, none)
  DescribeServices := fun i =>
    (⟨i.Services.map fun a => ⟨some a, some a, some 1, some 1, some 0, []⟩⟩, none)

/-- A remote that lists the identifiers `a`, `b`, `c` one to a page, whatever the
page bound, for clusters and for services alike. -/
def shortPageRemote : ECS where
  ListClusters := fun i =>
    if i.NextToken = some "t1" then (⟨["b"], some "t2"⟩, none)
    else if i.NextToken = some "t2" then (⟨["c"], none⟩, none)
    else (⟨["a"], some "t1"⟩, none)
  DescribeClusters := fun i => (⟨i.Clusters.map fun a => ⟨some a, some a⟩⟩, none)
  ListServices := fun i =>
    if i.NextToken = some "t1" then (⟨["b"], some "t2"⟩, none)
    else if i.NextToken = some "t2" then (⟨["c"], none⟩, none)
    else (⟨["a"], some "t1"⟩, none)
  DescribeServices := fun i =>
    (⟨i.Services.map fun a => ⟨some a, some a, some 1, some 1, some 0, []⟩⟩, none)

/-- A remote that lists no cluster and whose `DescribeClusters` fails. -/
def describeDeniedRemote : ECS where
  ListClusters := fun _ => (⟨[], none⟩, none)
  DescribeClusters := fun _ => (⟨[]⟩, some "AccessDenied")
  ListServices := fun _ => (⟨[], none⟩, none)
  DescribeServices := fun _ => (⟨[]⟩, none)

/-- Whether the listing of the services of `cluster` succeeds and at least one
DescribeServices batch of the cluster answers with an error. -/
def batchFails (client : ECS) (maxResults fuel : Nat) (cluster : ECSCluster) : Bool :=
  match listServicesLoop client fuel
      { Cluster := cluster.ID, MaxResults := maxResults, NextToken := none } [] [] with
  | some (_, .ok serviceArns) =>
    (serviceBlocks serviceArns maxResults).any fun block =>
      (client.DescribeServices { Services := block, Cluster := cluster.ID }).2.isSome
  | _ => false

/-- The 25 service identifiers of the cluster `prod`. -/
def prodServiceArns : List String :=
  ["s01", "s02", "s03", "s04", "s05", "s06", "s07", "s08", "s09", "s10", "s11", "s12",
   "s13", "s14", "s15", "s16", "s17", "s18", "s19", "s20", "s21", "s22", "s23", "s24",
   "s25"]

/-- A remote with one cluster `prod` of 25 services, listed in pages of ten;
the describe batch of the second ten services fails. -/
def prodRemote : ECS where
  ListClusters := fun _ => (⟨["arn:prod"], none⟩, none)
  DescribeClusters := fun i => (⟨i.Clusters.map fun a => ⟨some a, some "prod"⟩⟩, none)
  ListServices := fun i =>
    if i.NextToken = some "p2" then (⟨slice prodServiceArns 10 20, some "p3"⟩, none)
    else if i.NextToken = some "p3" then (⟨prodServiceArns.drop 20, none⟩, none)
    else (⟨prodServiceArns.take 10, some "p2"⟩, none)
  DescribeServices := fun i =>
    if i.Services = slice prodServiceArns 10 20 then (⟨[]⟩, some "ThrottlingException")
    else (⟨i.Services.map fun a => ⟨some a, some a, some 1, some 1, some 0, [⟨none⟩]⟩⟩, none)

/-- A remote whose `ListClusters` fails. -/
def listDeniedRemote : ECS where
  ListClusters := fun _ => (⟨[], none⟩, some "AccessDenied")
  DescribeClusters := fun _ => (⟨[]⟩, none)
  ListServices := fun _ => (⟨[], none⟩, none)
  DescribeServices := fun _ => (⟨[]⟩, none)

/-- An SDK in which every session and every role reach the same remote. -/
def singleRemoteAWS (client : ECS) : AWS where
  sessionNew := fun _ => some ⟨fun _ => client⟩

/-- An SDK in which role `roleA` reaches a remote whose cluster listing fails
and every other role reaches `threeIdRemote`. -/
def twoTenantAWS : AWS where
  sessionNew := fun _ =>
    some ⟨fun role => if role = some "roleA" then listDeniedRemote else threeIdRemote⟩

/-! ## The batching loop -/

/-- The block computed in one iteration of the batching loop is the next
`maxResults` identifiers after `pos`. -/
theorem block_eq_take_drop (l : List String) (N pos : Nat) :
    (if pos + N > l.length then l.drop pos else slice l pos (pos + N))
      = (l.drop pos).take N := by
  split
  · rw [List.take_of_length_le]
    rw [List.length_drop]; omega
  · unfold slice
    rw [List.drop_take]
    congr 1; omega

/-- One unfolding of the batching loop. -/
theorem blocksLoop_succ (l : List String) (N iters i : Nat) :
    blocksLoop l N (iters + 1) i
      = if i * N ≥ l.length then []
        else (l.drop (i * N)).take N :: blocksLoop l N iters (i + 1) := by
  simp only [blocksLoop, block_eq_take_drop]

/-- The blocks of the batching loop, concatenated, are the identifiers from
position `i * N` on, provided the loop condition allows enough iterations. -/
theorem blocksLoop_flatten (l : List String) (N : Nat) :
    ∀ iters i, l.length < (iters + i) * N →
      (blocksLoop l N iters i).flatten = l.drop (i * N) := by
  intro iters
  induction iters with
  | zero =>
    intro i h
    rw [List.drop_eq_nil_of_le (by simpa using h.le)]
    rfl
  | succ n ih =>
    intro i h
    rw [blocksLoop_succ]
    split
    · rename_i hge
      rw [List.drop_eq_nil_of_le hge]; rfl
    · rw [List.flatten_cons, ih (i + 1) (by rw [← Nat.add_assoc, Nat.add_right_comm]; exact h)]
      have e : (i + 1) * N = i * N + N := Nat.succ_mul i N
      rw [e, ← List.drop_drop, List.take_append_drop]

/-- The `k`-th block of the batching loop started at `i` is the slice of at most
`N` identifiers at position `(i + k) * N`, which lies inside the list. -/
theorem blocksLoop_getElem (l : List String) (N : Nat) :
    ∀ iters i k b, (blocksLoop l N iters i)[k]? = some b →
      b = (l.drop ((i + k) * N)).take N ∧ (i + k) * N < l.length := by
  intro iters
  induction iters with
  | zero => intro i k b h; simp [blocksLoop] at h
  | succ n ih =>
    intro i k b h
    rw [blocksLoop_succ] at h
    split at h
    · simp at h
    · rename_i hlt
      cases k with
      | zero =>
        simp only [List.getElem?_cons_zero, Option.some.injEq] at h
        exact ⟨h.symm, by simpa using hlt⟩
      | succ k =>
        rw [List.getElem?_cons_succ] at h
        have := ih (i + 1) k b h
        have e : i + 1 + k = i + (k + 1) := by omega
        rwa [e] at this

/-- The number of blocks of the batching loop. -/
theorem blocksLoop_length (l : List String) (N : Nat) (hN : 1 ≤ N) :
    ∀ iters i, l.length < (iters + i) * N →
      (blocksLoop l N iters i).length = (l.length + N - 1) / N - i := by
  intro iters
  induction iters with
  | zero =>
    intro i h
    have : (l.length + N - 1) / N < i + 1 := by
      rw [Nat.div_lt_iff_lt_mul (by omega), Nat.succ_mul]
      simp only [Nat.zero_add] at h
      omega
    simp only [blocksLoop, List.length_nil]
    omega
  | succ n ih =>
    intro i h
    rw [blocksLoop_succ]
    split
    · rename_i hge
      have : (l.length + N - 1) / N < i + 1 := by
        rw [Nat.div_lt_iff_lt_mul (by omega), Nat.succ_mul]
        omega
      simp only [List.length_nil]
      omega
    · rename_i hlt
      rw [List.length_cons, ih (i + 1) (by rw [← Nat.add_assoc, Nat.add_right_comm]; exact h)]
      have : i + 1 ≤ (l.length + N - 1) / N := by
        rw [Nat.le_div_iff_mul_le (by omega), Nat.succ_mul]
        omega
      omega

/-- The loop condition `i <= len / N` allows enough iterations. -/
theorem serviceBlocks_iters (l : List String) (N : Nat) (hN : 1 ≤ N) :
    l.length < (l.length / N + 1 + 0) * N := by
  have h1 := Nat.div_add_mod l.length N
  have h2 := Nat.mod_lt l.length (show N > 0 by omega)
  rw [Nat.mul_comm] at h1
  rw [Nat.add_zero, Nat.succ_mul]
  omega

/-- The dispatched blocks, concatenated in dispatch order, are the identifier
list. -/
theorem serviceBlocks_flatten (l : List String) (N : Nat) (hN : 1 ≤ N) :
    (serviceBlocks l N).flatten = l := by
  have := blocksLoop_flatten l N _ 0 (serviceBlocks_iters l N hN)
  simpa [serviceBlocks] using this

/-- The number of dispatched blocks is `ceil (len l / N)`. -/
theorem serviceBlocks_length (l : List String) (N : Nat) (hN : 1 ≤ N) :
    (serviceBlocks l N).length = (l.length + N - 1) / N := by
  have := blocksLoop_length l N hN _ 0 (serviceBlocks_iters l N hN)
  simpa [serviceBlocks] using this

/-- C9. For every identifier list `l` and batch size `N ≥ 1`, the blocks
dispatched by the batching loop of `getServices` concatenate, in dispatch order,
to `l`; the `k`-th block is the slice of `l` from `k * N` (inside `l`) to
`min ((k + 1) * N) (len l)`; every block is non-empty with at most `N` elements;
every block but the last has exactly `N` elements; and the empty list yields no
block. -/
theorem serviceBlocks_partition (l : List String) (N : Nat) (hN : 1 ≤ N) :
    (serviceBlocks l N).flatten = l
    ∧ (∀ k b, (serviceBlocks l N)[k]? = some b →
        k * N < l.length ∧ b = slice l (k * N) (min ((k + 1) * N) l.length))
    ∧ (∀ b ∈ serviceBlocks l N, b ≠ [] ∧ b.length ≤ N)
    ∧ (∀ k b, k + 1 < (serviceBlocks l N).length → (serviceBlocks l N)[k]? = some b →
        b.length = N)
    ∧ serviceBlocks [] N = [] := by
  have key : ∀ k b, (serviceBlocks l N)[k]? = some b →
      b = (l.drop (k * N)).take N ∧ k * N < l.length := by
    intro k b h
    have := blocksLoop_getElem l N _ 0 k b h
    simpa using this
  refine ⟨serviceBlocks_flatten l N hN, ?_, ?_, ?_, ?_⟩
  · intro k b h
    obtain ⟨hb, hk⟩ := key k b h
    refine ⟨hk, ?_⟩
    rw [hb]
    unfold slice
    rw [List.drop_take]
    apply List.ext_getElem?
    intro j
    simp only [List.getElem?_take, List.getElem?_drop, Nat.succ_mul]
    by_cases h1 : j < N
    · by_cases h2 : k * N + j < l.length
      · rw [if_pos h1, if_pos (by omega)]
      · rw [if_pos h1, List.getElem?_eq_none (by omega)]
        split <;> rfl
    · rw [if_neg h1, if_neg (by omega)]
  · intro b hb
    obtain ⟨k, hk⟩ := List.getElem?_of_mem hb
    obtain ⟨hb, hk⟩ := key k b hk
    subst hb
    constructor
    · intro h
      have := congrArg List.length h
      simp only [List.length_take, List.length_drop, List.length_nil] at this
      omega
    · simp only [List.length_take]
      omega
  · intro k b hk h
    obtain ⟨hb, _⟩ := key k b h
    obtain ⟨b2, h2⟩ : ∃ b2, (serviceBlocks l N)[k + 1]? = some b2 :=
      ⟨_, List.getElem?_eq_getElem hk⟩
    obtain ⟨_, hk2⟩ := key (k + 1) b2 h2
    subst hb
    rw [Nat.succ_mul] at hk2
    simp only [List.length_take, List.length_drop]
    omega
  · simp [serviceBlocks, blocksLoop]

/-- Witness for `serviceBlocks_partition`: 25 identifiers and batch size 10. -/
theorem serviceBlocks_partition_witness :
    (serviceBlocks ((List.range 25).map toString) 10).map List.length = [10, 10, 5]
    ∧ (serviceBlocks ((List.range 25).map toString) 10).flatten
        = (List.range 25).map toString :=
  ⟨by decide, (serviceBlocks_partition ((List.range 25).map toString) 10 (by decide)).1⟩

/-! ## The join loop -/

/-- The join loop over results without error merges the first `n` of them. -/
theorem joinLoop_ok : ∀ (rs : List ecsResult) (n : Nat) (acc : List ECSService),
    (∀ x ∈ rs, x.err = none) → n ≤ rs.length →
      joinLoop n rs acc = some (acc ++ (rs.take n).flatMap (fun x => x.result), none) := by
  intro rs
  induction rs with
  | nil =>
    intro n acc _ hn
    have : n = 0 := by simpa using hn
    subst this
    simp [joinLoop]
  | cons x rest ih =>
    intro n acc hall hn
    cases n with
    | zero => simp [joinLoop]
    | succ n =>
      have hx : x.err = none := hall x (List.mem_cons_self _ _)
      simp only [joinLoop, hx]
      rw [ih n _ (fun y hy => hall y (List.mem_cons_of_mem _ hy))
        (by simpa using hn)]
      simp [List.flatMap_cons, List.append_assoc]

/-- The join loop returns at the first error with what it merged before. -/
theorem joinLoop_err : ∀ (pre : List ecsResult) (n : Nat) (acc : List ECSService)
    (r : List ECSService) (e : Err) (post : List ecsResult),
    (∀ x ∈ pre, x.err = none) → pre.length < n →
      joinLoop n (pre ++ ⟨r, some e⟩ :: post) acc
        = some (acc ++ pre.flatMap (fun x => x.result), some e) := by
  intro pre
  induction pre with
  | nil =>
    intro n acc r e post _ hn
    cases n with
    | zero => simp at hn
    | succ n => simp [joinLoop]
  | cons x rest ih =>
    intro n acc r e post hall hn
    cases n with
    | zero => simp at hn
    | succ n =>
      have hx : x.err = none := hall x (List.mem_cons_self _ _)
      have step : joinLoop (n + 1) (x :: (rest ++ ⟨r, some e⟩ :: post)) acc
          = joinLoop n (rest ++ ⟨r, some e⟩ :: post) (acc ++ x.result) := by
        simp only [joinLoop, hx]
      rw [List.cons_append, step,
        ih n _ r e post (fun y hy => hall y (List.mem_cons_of_mem _ hy)) (by simpa using hn)]
      simp [List.flatMap_cons, List.append_assoc]

/-- A sequence of results either has no error or splits at its first error. -/
theorem split_first_error : ∀ (rs : List ecsResult),
    (∀ x ∈ rs, x.err = none) ∨
    ∃ pre r e post, rs = pre ++ ⟨r, some e⟩ :: post ∧ ∀ x ∈ pre, x.err = none := by
  intro rs
  induction rs with
  | nil => left; simp
  | cons x rest ih =>
    cases hx : x.err with
    | some e =>
      right
      refine ⟨[], x.result, e, rest, ?_, by simp⟩
      cases x
      simp_all
    | none =>
      rcases ih with h | ⟨pre, r, e, post, h1, h2⟩
      · left
        intro y hy
        rcases List.mem_cons.1 hy with rfl | hy
        · exact hx
        · exact h y hy
      · right
        refine ⟨x :: pre, r, e, post, by simp [h1], ?_⟩
        intro y hy
        rcases List.mem_cons.1 hy with rfl | hy
        · exact hx
        · exact h2 y hy

/-- C8. For every sequence of batch results received in arrival order by the
join loop of `getServices` (started with no service merged and as many receives
as there are results): if the sequence has an error, with `pre` the results
before the first one, the loop returns that error together with exactly the
concatenation of the services of `pre`, whatever follows the error; if the
sequence has no error, the loop returns the concatenation of all results and a
nil error. -/
theorem joinLoop_first_error (pre post : List ecsResult) (r : List ECSService) (e : Err)
    (rs : List ecsResult) (hpre : ∀ x ∈ pre, x.err = none) (hrs : ∀ x ∈ rs, x.err = none) :
    joinLoop (pre ++ ⟨r, some e⟩ :: post).length (pre ++ ⟨r, some e⟩ :: post) []
        = some (pre.flatMap (fun x => x.result), some e)
    ∧ joinLoop rs.length rs [] = some (rs.flatMap (fun x => x.result), none) := by
  constructor
  · have := joinLoop_err pre (pre ++ ⟨r, some e⟩ :: post).length [] r e post hpre (by simp)
    simpa using this
  · have := joinLoop_ok rs rs.length [] hrs (Nat.le_refl _)
    simpa using this

/-- Witness for `joinLoop_first_error`: two successful results around one error,
and a sequence of two successful results. -/
theorem joinLoop_first_error_witness :
    joinLoop 3 [⟨[⟨"a", "s1", 1, 2, 2, 0⟩], none⟩, ⟨[], some "boom"⟩,
        ⟨[⟨"b", "s2", 1, 1, 1, 0⟩], none⟩] []
      = some ([⟨"a", "s1", 1, 2, 2, 0⟩], some "boom")
    ∧ joinLoop 2 [⟨[⟨"a", "s1", 1, 2, 2, 0⟩], none⟩, ⟨[⟨"b", "s2", 1, 1, 1, 0⟩], none⟩] []
      = some ([⟨"a", "s1", 1, 2, 2, 0⟩, ⟨"b", "s2", 1, 1, 1, 0⟩], none) :=
  joinLoop_first_error [⟨[⟨"a", "s1", 1, 2, 2, 0⟩], none⟩] [⟨[⟨"b", "s2", 1, 1, 1, 0⟩], none⟩]
    [] "boom" [⟨[⟨"a", "s1", 1, 2, 2, 0⟩], none⟩, ⟨[⟨"b", "s2", 1, 1, 1, 0⟩], none⟩]
    (by decide) (by decide)

/-! ## The join channel -/

/-- A receive that succeeds takes the head of one of the queues. -/
theorem recv_some : ∀ (qs : List (List ecsResult)) (k : Nat) (r : ecsResult)
    (qs2 : List (List ecsResult)), recv k qs = some (r, qs2) →
      ∃ A q B, qs = A ++ (r :: q) :: B ∧ qs2 = A ++ q :: B := by
  intro qs
  induction qs with
  | nil => intro k r qs2 h; simp [recv] at h
  | cons q0 rest ih =>
    intro k r qs2 h
    cases q0 with
    | nil =>
      simp only [recv] at h
      cases hr : recv k rest with
      | none => simp [hr] at h
      | some p =>
        obtain ⟨r1, qs1⟩ := p
        simp only [hr, Option.some.injEq, Prod.mk.injEq] at h
        obtain ⟨A, q, B, h1, h2⟩ := ih k r1 qs1 hr
        refine ⟨[] :: A, q, B, ?_, ?_⟩
        · rw [h1, ← h.1]; rfl
        · rw [← h.2, h2]; rfl
    | cons r0 q0 =>
      cases k with
      | zero =>
        simp only [recv, Option.some.injEq, Prod.mk.injEq] at h
        exact ⟨[], q0, rest, by rw [h.1]; rfl, by rw [← h.2]; rfl⟩
      | succ k =>
        simp only [recv] at h
        cases hr : recv k rest with
        | none =>
          simp only [hr, Option.some.injEq, Prod.mk.injEq] at h
          exact ⟨[], q0, rest, by rw [h.1]; rfl, by rw [← h.2]; rfl⟩
        | some p =>
          obtain ⟨r1, qs1⟩ := p
          simp only [hr, Option.some.injEq, Prod.mk.injEq] at h
          obtain ⟨A, q, B, h1, h2⟩ := ih k r1 qs1 hr
          refine ⟨(r0 :: q0) :: A, q, B, ?_, ?_⟩
          · rw [h1, ← h.1]; rfl
          · rw [← h.2, h2]; rfl

/-- A receive blocks only when no goroutine has a send pending. -/
theorem recv_none : ∀ (qs : List (List ecsResult)) (k : Nat), recv k qs = none →
    qs.flatten = [] := by
  intro qs
  induction qs with
  | nil => intro k _; rfl
  | cons q0 rest ih =>
    intro k h
    cases q0 with
    | nil =>
      simp only [recv] at h
      cases hr : recv k rest with
      | none => simpa using ih k hr
      | some p => simp [hr] at h
    | cons r0 q0 =>
      cases k with
      | zero => simp [recv] at h
      | succ k =>
        simp only [recv] at h
        cases hr : recv k rest with
        | none => simp [hr] at h
        | some p => simp [hr] at h

/-- While sends are pending, the channel delivers as many results as are
received. -/
theorem arrivalOrder_length : ∀ (n : Nat) (sched : List Nat) (qs : List (List ecsResult)),
    n ≤ qs.flatten.length → (arrivalOrder n sched qs).length = n := by
  intro n
  induction n with
  | zero => intro sched qs _; rfl
  | succ n ih =>
    intro sched qs h
    cases hr : recv (sched.headD 0) qs with
    | none =>
      have := recv_none qs _ hr
      rw [this] at h
      simp at h
    | some p =>
      obtain ⟨r, qs2⟩ := p
      obtain ⟨A, q, B, h1, h2⟩ := recv_some qs _ r qs2 hr
      simp only [arrivalOrder, hr, List.length_cons, Nat.add_right_cancel_iff]
      apply ih
      subst h1 h2
      simp only [List.flatten_append, List.flatten_cons, List.length_append,
        List.length_cons] at h ⊢
      omega

/-- Once every pending send has been received, the results delivered are the
results sent, in some order. -/
theorem arrivalOrder_perm : ∀ (n : Nat) (sched : List Nat) (qs : List (List ecsResult)),
    qs.flatten.length ≤ n → (arrivalOrder n sched qs).Perm qs.flatten := by
  intro n
  induction n with
  | zero =>
    intro sched qs h
    have : qs.flatten = [] := List.length_eq_zero.1 (Nat.le_zero.1 h)
    rw [this]
    exact List.Perm.refl _
  | succ n ih =>
    intro sched qs h
    cases hr : recv (sched.headD 0) qs with
    | none =>
      rw [recv_none qs _ hr]
      simp only [arrivalOrder, hr]
      exact List.Perm.refl _
    | some p =>
      obtain ⟨r, qs2⟩ := p
      obtain ⟨A, q, B, h1, h2⟩ := recv_some qs _ r qs2 hr
      simp only [arrivalOrder, hr]
      have hlen : qs2.flatten.length ≤ n := by
        subst h1 h2
        simp only [List.flatten_append, List.flatten_cons, List.length_append,
          List.length_cons] at h ⊢
        omega
      refine (List.Perm.cons r (ih sched.tail qs2 hlen)).trans ?_
      subst h1 h2
      simp only [List.flatten_append, List.flatten_cons, List.cons_append]
      exact List.perm_middle.symm

/-- The results delivered before any error come from the error-free heads of the
queues. -/
theorem arrivalOrder_ok_le : ∀ (n : Nat) (sched : List Nat) (qs : List (List ecsResult)),
    (∀ x ∈ arrivalOrder n sched qs, x.err = none) →
      (arrivalOrder n sched qs).length
        ≤ ((qs.map (List.takeWhile fun x => x.err.isNone)).flatten).length := by
  intro n
  induction n with
  | zero => intro sched qs _; simp [arrivalOrder]
  | succ n ih =>
    intro sched qs h
    cases hr : recv (sched.headD 0) qs with
    | none =>
      simp only [arrivalOrder, hr, List.length_nil]
      exact Nat.zero_le _
    | some p =>
      obtain ⟨r, qs2⟩ := p
      obtain ⟨A, q, B, h1, h2⟩ := recv_some qs _ r qs2 hr
      simp only [arrivalOrder, hr] at h ⊢
      have hr0 : r.err = none := h r (List.mem_cons_self _ _)
      have := ih sched.tail qs2 (fun x hx => h x (List.mem_cons_of_mem _ hx))
      subst h1 h2
      simp only [List.map_append, List.map_cons, List.flatten_append, List.flatten_cons,
        List.length_append, List.length_cons, List.takeWhile_cons, hr0, Option.isNone_none,
        if_true] at this ⊢
      omega

/-! ## The listing loops -/

/-- A remote that serves pages serves at least one. -/
theorem servesPages_ne_nil (page : Pager) (N : Nat) :
    ∀ tok rest pages, ServesPages page N tok rest pages → pages ≠ [] := by
  intro tok rest pages h
  cases h <;> simp

/-- Pages of at most `N` identifiers: `K` identifiers take at least
`max 1 (ceil (K / N))` pages. -/
theorem servesPages_lower (page : Pager) (N : Nat) (hN : 1 ≤ N) :
    ∀ tok rest pages, ServesPages page N tok rest pages →
      max 1 ((rest.length + N - 1) / N) ≤ pages.length := by
  intro tok rest pages h
  induction h with
  | last tok rest next hlen _ _ =>
    have : (rest.length + N - 1) / N < 2 := by
      rw [Nat.div_lt_iff_lt_mul (by omega)]; omega
    simp only [List.length_singleton]
    omega
  | more tok p rest t pages hp _ _ _ _ ih =>
    have hle : ((p ++ rest).length + N - 1) / N ≤ (rest.length + N - 1 + N) / N := by
      apply Nat.div_le_div_right
      rw [List.length_append]
      omega
    rw [Nat.add_div_right _ (by omega : 0 < N)] at hle
    simp only [List.length_cons]
    omega

/-- Full pages: when every page but the last holds `N` identifiers, `K`
identifiers take exactly `max 1 (ceil (K / N))` pages. -/
theorem servesPages_full (page : Pager) (N : Nat) (hN : 1 ≤ N) :
    ∀ tok rest pages, ServesPages page N tok rest pages →
      (∀ p ∈ pages.dropLast, p.length = N) →
      pages.length = max 1 ((rest.length + N - 1) / N) := by
  intro tok rest pages h
  induction h with
  | last tok rest next hlen _ _ =>
    intro _
    have : (rest.length + N - 1) / N < 2 := by
      rw [Nat.div_lt_iff_lt_mul (by omega)]; omega
    simp only [List.length_singleton]
    omega
  | more tok p rest t pages _ hrest _ _ hserves ih =>
    intro hfull
    have hne := servesPages_ne_nil page N _ _ _ hserves
    obtain ⟨q, qs, rfl⟩ := List.exists_cons_of_ne_nil hne
    rw [List.dropLast_cons₂] at hfull
    have hp : p.length = N := hfull p (List.mem_cons_self _ _)
    have ih2 := ih (fun x hx => hfull x (List.mem_cons_of_mem _ hx))
    have hpos : 0 < rest.length := List.length_pos.2 hrest
    have e : (p ++ rest).length + N - 1 = (rest.length + N - 1) + N := by
      rw [List.length_append, hp]; omega
    have h1 : 1 ≤ (rest.length + N - 1) / N := by
      rw [Nat.le_div_iff_mul_le (by omega)]; omega
    rw [e, Nat.add_div_right _ (by omega : 0 < N)]
    simp only [List.length_cons] at ih2 ⊢
    omega

/-- Against a remote that serves `rest` in the pages `pages` from cursor `tok`,
the listing loop of `getClusters` finishes, appends `rest` to what it had
accumulated and issues one call per page. -/
theorem listClustersLoop_serves (client : ECS) (N : Nat) :
    ∀ tok rest pages, ServesPages (clusterPages client N) N tok rest pages →
      ∀ fuel acc calls, pages.length ≤ fuel →
        ∃ more, listClustersLoop client fuel ⟨N, tok⟩ acc calls
            = some (calls ++ more, .ok (acc ++ rest))
          ∧ more.length = pages.length := by
  intro tok rest pages h
  induction h with
  | last tok rest next hlen hpage hlast =>
    intro fuel acc calls hfuel
    simp only [List.length_singleton] at hfuel
    obtain ⟨f, rfl⟩ : ∃ f, fuel = f + 1 := ⟨fuel - 1, by omega⟩
    cases hc : client.ListClusters ⟨N, tok⟩ with
    | mk resp err =>
      simp only [clusterPages, hc, Prod.mk.injEq] at hpage
      obtain ⟨h1, h2, h3⟩ := hpage
      refine ⟨[⟨N, tok⟩], ?_, rfl⟩
      simp only [listClustersLoop, hc, h3, h1, h2, hlast, if_true]
  | more tok p rest t pages _ _ ht hpage _ ih =>
    intro fuel acc calls hfuel
    simp only [List.length_cons] at hfuel
    obtain ⟨f, rfl⟩ : ∃ f, fuel = f + 1 := ⟨fuel - 1, by omega⟩
    cases hc : client.ListClusters ⟨N, tok⟩ with
    | mk resp err =>
      simp only [clusterPages, hc, Prod.mk.injEq] at hpage
      obtain ⟨h1, h2, h3⟩ := hpage
      have hnl : lastPage (some t) = false := by
        simp [lastPage, StringValue, ht]
      obtain ⟨more, hm1, hm2⟩ := ih f (acc ++ p) (calls ++ [⟨N, tok⟩]) (by omega)
      refine ⟨⟨N, tok⟩ :: more, ?_, ?_⟩
      · simp only [listClustersLoop, hc, h3, h1, h2, hnl]
        rw [if_neg (by simp), hm1]
        simp [List.append_assoc]
      · rw [List.length_cons, hm2, List.length_cons]

/-- Against a remote that serves `rest` in the pages `pages` from cursor `tok`,
the listing loop of `getServices` finishes, appends `rest` to what it had
accumulated and issues one call per page. -/
theorem listServicesLoop_serves (client : ECS) (cluster : String) (N : Nat) :
    ∀ tok rest pages, ServesPages (servicePages client cluster N) N tok rest pages →
      ∀ fuel acc calls, pages.length ≤ fuel →
        ∃ more, listServicesLoop client fuel ⟨cluster, N, tok⟩ acc calls
            = some (calls ++ more, .ok (acc ++ rest))
          ∧ more.length = pages.length := by
  intro tok rest pages h
  induction h with
  | last tok rest next hlen hpage hlast =>
    intro fuel acc calls hfuel
    simp only [List.length_singleton] at hfuel
    obtain ⟨f, rfl⟩ : ∃ f, fuel = f + 1 := ⟨fuel - 1, by omega⟩
    cases hc : client.ListServices ⟨cluster, N, tok⟩ with
    | mk resp err =>
      simp only [servicePages, hc, Prod.mk.injEq] at hpage
      obtain ⟨h1, h2, h3⟩ := hpage
      refine ⟨[⟨cluster, N, tok⟩], ?_, rfl⟩
      simp only [listServicesLoop, hc, h3, h1, h2, hlast, if_true]
  | more tok p rest t pages _ _ ht hpage _ ih =>
    intro fuel acc calls hfuel
    simp only [List.length_cons] at hfuel
    obtain ⟨f, rfl⟩ : ∃ f, fuel = f + 1 := ⟨fuel - 1, by omega⟩
    cases hc : client.ListServices ⟨cluster, N, tok⟩ with
    | mk resp err =>
      simp only [servicePages, hc, Prod.mk.injEq] at hpage
      obtain ⟨h1, h2, h3⟩ := hpage
      have hnl : lastPage (some t) = false := by
        simp [lastPage, StringValue, ht]
      obtain ⟨more, hm1, hm2⟩ := ih f (acc ++ p) (calls ++ [⟨cluster, N, tok⟩]) (by omega)
      refine ⟨⟨cluster, N, tok⟩ :: more, ?_, ?_⟩
      · simp only [listServicesLoop, hc, h3, h1, h2, hnl]
        rw [if_neg (by simp), hm1]
        simp [List.append_assoc]
      · rw [List.length_cons, hm2, List.length_cons]

/-- C5 (as amended). For every page bound `N ≥ 1`, the listing loop of
`getClusters` and the listing loop of `getServices`, each on its own remote
listing and its own duplicate-free list of `K` identifiers: against a remote
that serves the identifiers in consecutive pages of at most `N` and returns a
non-empty cursor exactly while identifiers remain, the loop finishes (given fuel
for one call per page), issues exactly one list call per page served, which is
at least `max 1 (ceil (K / N))` calls and exactly `max 1 (ceil (K / N))` calls
when every page but the last holds `N` identifiers, and accumulates exactly the
`K` identifiers, without duplicates. -/
theorem listing_loops_calls (client : ECS) (cluster : String) (N fuel : Nat) (hN : 1 ≤ N) :
    (∀ (ids : List String) (pages : List (List String)), ids.Nodup →
      ServesPages (clusterPages client N) N none ids pages → pages.length ≤ fuel →
      ∃ calls acc, listClustersLoop client fuel ⟨N, none⟩ [] [] = some (calls, .ok acc)
        ∧ calls.length = pages.length
        ∧ max 1 ((ids.length + N - 1) / N) ≤ calls.length
        ∧ ((∀ p ∈ pages.dropLast, p.length = N) →
            calls.length = max 1 ((ids.length + N - 1) / N))
        ∧ acc = ids ∧ acc.length = ids.length ∧ acc.Nodup)
    ∧ (∀ (ids : List String) (pages : List (List String)), ids.Nodup →
      ServesPages (servicePages client cluster N) N none ids pages → pages.length ≤ fuel →
      ∃ calls acc, listServicesLoop client fuel ⟨cluster, N, none⟩ [] []
          = some (calls, .ok acc)
        ∧ calls.length = pages.length
        ∧ max 1 ((ids.length + N - 1) / N) ≤ calls.length
        ∧ ((∀ p ∈ pages.dropLast, p.length = N) →
            calls.length = max 1 ((ids.length + N - 1) / N))
        ∧ acc = ids ∧ acc.length = ids.length ∧ acc.Nodup) := by
  constructor
  · intro ids pages hnodup hc hfuel
    obtain ⟨more, h1, h2⟩ := listClustersLoop_serves client N none ids pages hc fuel [] [] hfuel
    refine ⟨more, ids, by simpa using h1, h2, ?_, ?_, rfl, rfl, hnodup⟩
    · rw [h2]; exact servesPages_lower _ N hN none ids pages hc
    · intro hfull
      rw [h2]; exact servesPages_full _ N hN none ids pages hc hfull
  · intro ids pages hnodup hs hfuel
    obtain ⟨more, h1, h2⟩ :=
      listServicesLoop_serves client cluster N none ids pages hs fuel [] [] hfuel
    refine ⟨more, ids, by simpa using h1, h2, ?_, ?_, rfl, rfl, hnodup⟩
    · rw [h2]; exact servesPages_lower _ N hN none ids pages hs
    · intro hfull
      rw [h2]; exact servesPages_full _ N hN none ids pages hs hfull

/-- The remote `threeIdRemote` serves `a`, `b`, `c` in pages of two, as cluster
identifiers. -/
theorem threeIdRemote_clusters :
    ServesPages (clusterPages threeIdRemote 2) 2 none ["a", "b", "c"] [["a", "b"], ["c"]] :=
  ServesPages.more none ["a", "b"] ["c"] "t" [["c"]] (by decide) (by decide) (by decide) rfl
    (ServesPages.last (some "t") ["c"] none (by decide) rfl rfl)

/-- The remote `prodRemote` serves the 25 services of `prod` in pages of ten. -/
theorem prodRemote_services :
    ServesPages (servicePages prodRemote "arn:prod" 10) 10 none prodServiceArns
      [prodServiceArns.take 10, slice prodServiceArns 10 20, prodServiceArns.drop 20] :=
  ServesPages.more none (prodServiceArns.take 10) (prodServiceArns.drop 10) "p2" _
    (by decide) (by decide) (by decide) rfl
    (ServesPages.more (some "p2") (slice prodServiceArns 10 20) (prodServiceArns.drop 20) "p3" _
      (by decide) (by decide) (by decide) rfl
      (ServesPages.last (some "p3") (prodServiceArns.drop 20) none (by decide) rfl rfl))

/-- Witness for `listing_loops_calls`: the cluster loop on the three clusters of
`threeIdRemote` under page bound two (two calls), and the service loop on the 25
services of `prod` under page bound ten (three calls); the two remotes and the
two identifier lists differ. -/
theorem listing_loops_calls_witness :
    (∃ calls acc, listClustersLoop threeIdRemote 2 ⟨2, none⟩ [] [] = some (calls, .ok acc)
        ∧ calls.length = 2 ∧ acc = ["a", "b", "c"])
    ∧ (∃ calls acc, listServicesLoop prodRemote 3 ⟨"arn:prod", 10, none⟩ [] []
          = some (calls, .ok acc)
        ∧ calls.length = 3 ∧ acc = prodServiceArns) := by
  constructor
  · obtain ⟨calls, acc, h1, _, _, h4, h5, _, _⟩ :=
      (listing_loops_calls threeIdRemote "arn:prod" 2 2 (by decide)).1 ["a", "b", "c"]
        [["a", "b"], ["c"]] (by decide) threeIdRemote_clusters (by decide)
    exact ⟨calls, acc, h1, (h4 (by decide)).trans (by decide), h5⟩
  · obtain ⟨calls, acc, h1, _, _, h4, h5, _, _⟩ :=
      (listing_loops_calls prodRemote "arn:prod" 10 3 (by decide)).2 prodServiceArns
        [prodServiceArns.take 10, slice prodServiceArns 10 20, prodServiceArns.drop 20]
        (by decide) prodRemote_services (by decide)
    exact ⟨calls, acc, h1, (h4 (by decide)).trans (by decide), h5⟩

/-- C5, counterexample. Two remotes that serve their identifiers in consecutive
pages of at most `N` with a non-empty cursor exactly while identifiers remain,
and on which neither listing loop issues `ceil (K / N)` calls.  `emptyRemote`
has no identifier: `ceil (0 / 10)` is `0`, and each loop issues one call.
`shortPageRemote` serves `a`, `b`, `c` one to a page under page bound `2`:
`ceil (3 / 2)` is `2`, and each loop issues three calls.  Both whatever fuel
lets the loops finish. -/
theorem listing_calls_not_ceil :
    ServesPages (clusterPages emptyRemote 10) 10 none [] [[]]
    ∧ ServesPages (servicePages emptyRemote "prod" 10) 10 none [] [[]]
    ∧ (([] : List String).length + 10 - 1) / 10 = 0
    ∧ (∀ fuel, listClustersLoop emptyRemote (fuel + 1) ⟨10, none⟩ [] []
        = some ([⟨10, none⟩], .ok []))
    ∧ (∀ fuel, listServicesLoop emptyRemote (fuel + 1) ⟨"prod", 10, none⟩ [] []
        = some ([⟨"prod", 10, none⟩], .ok []))
    ∧ listClustersLoop emptyRemote 0 ⟨10, none⟩ [] [] = none
    ∧ listServicesLoop emptyRemote 0 ⟨"prod", 10, none⟩ [] [] = none
    ∧ ServesPages (clusterPages shortPageRemote 2) 2 none ["a", "b", "c"] [["a"], ["b"], ["c"]]
    ∧ ServesPages (servicePages shortPageRemote "prod" 2) 2 none ["a", "b", "c"]
        [["a"], ["b"], ["c"]]
    ∧ (["a", "b", "c"].length + 2 - 1) / 2 = 2
    ∧ (∀ fuel, listClustersLoop shortPageRemote (fuel + 3) ⟨2, none⟩ [] []
        = some ([⟨2, none⟩, ⟨2, some "t1"⟩, ⟨2, some "t2"⟩], .ok ["a", "b", "c"]))
    ∧ (∀ fuel, listServicesLoop shortPageRemote (fuel + 3) ⟨"prod", 2, none⟩ [] []
        = some ([⟨"prod", 2, none⟩, ⟨"prod", 2, some "t1"⟩, ⟨"prod", 2, some "t2"⟩],
            .ok ["a", "b", "c"]))
    ∧ (∀ fuel, fuel < 3 → listClustersLoop shortPageRemote fuel ⟨2, none⟩ [] [] = none)
    ∧ (∀ fuel, fuel < 3 → listServicesLoop shortPageRemote fuel ⟨"prod", 2, none⟩ [] []
        = none) := by
  refine ⟨ServesPages.last none [] none (by decide) rfl rfl,
    ServesPages.last none [] none (by decide) rfl rfl,
    by decide, fun _ => rfl, fun _ => rfl, rfl, rfl, ?_, ?_, by decide,
    fun _ => rfl, fun _ => rfl, ?_, ?_⟩
  · exact ServesPages.more none ["a"] ["b", "c"] "t1" _ (by decide) (by decide) (by decide) rfl
      (ServesPages.more (some "t1") ["b"] ["c"] "t2" _ (by decide) (by decide) (by decide) rfl
        (ServesPages.last (some "t2") ["c"] none (by decide) rfl rfl))
  · exact ServesPages.more none ["a"] ["b", "c"] "t1" _ (by decide) (by decide) (by decide) rfl
      (ServesPages.more (some "t1") ["b"] ["c"] "t2" _ (by decide) (by decide) (by decide) rfl
        (ServesPages.last (some "t2") ["c"] none (by decide) rfl rfl))
  · intro fuel h
    match fuel, h with
    | 0, _ => rfl
    | 1, _ => rfl
    | 2, _ => rfl
  · intro fuel h
    match fuel, h with
    | 0, _ => rfl
    | 1, _ => rfl
    | 2, _ => rfl

/-! ## The cluster enumerator -/

/-- C7 (as amended). Whenever the cluster listing yields an identifier set,
empty or not, `getClusters` issues exactly one describe-clusters call, carrying
the full identifier set; if that call answers without error, `getClusters`
returns no error and one `ECSCluster` (ARN, name) per described entry, in the
same order; if it answers with an error, `getClusters` returns that error. -/
theorem getClusters_describes_once (client : ECS) (N fuel : Nat)
    (calls : List ListClustersInput) (arns : List String)
    (hlist : listClustersLoop client fuel ⟨N, none⟩ [] [] = some (calls, .ok arns)) :
    ∃ run, getClusters client N fuel = some run
      ∧ run.listCalls = calls
      ∧ run.describeCalls = [⟨arns⟩]
      ∧ ((client.DescribeClusters ⟨arns⟩).2 = none →
          ∃ clusters, run.ret = .ok clusters
            ∧ clusters.length = (client.DescribeClusters ⟨arns⟩).1.Clusters.length
            ∧ clusters = (client.DescribeClusters ⟨arns⟩).1.Clusters.map
                fun c => ⟨StringValue c.ClusterArn, StringValue c.ClusterName⟩)
      ∧ (∀ e, (client.DescribeClusters ⟨arns⟩).2 = some e → run.ret = .error e) := by
  cases hd : client.DescribeClusters ⟨arns⟩ with
  | mk resp err =>
    cases err with
    | none =>
      refine ⟨_, by simp only [getClusters, hlist, hd]; rfl, rfl, rfl, ?_, ?_⟩
      · intro _
        exact ⟨_, rfl, by simp, rfl⟩
      · intro e he; simp at he
    | some e0 =>
      refine ⟨_, by simp only [getClusters, hlist, hd]; rfl, rfl, rfl, ?_, ?_⟩
      · intro he; simp at he
      · intro e he
        simp only [Option.some.injEq] at he
        rw [he]

/-- Witness for `getClusters_describes_once`: three clusters listed in two
pages and described in one call. -/
theorem getClusters_describes_once_witness :
    listClustersLoop threeIdRemote 2 ⟨2, none⟩ [] []
        = some ([⟨2, none⟩, ⟨2, some "t"⟩], .ok ["a", "b", "c"])
    ∧ ∃ run, getClusters threeIdRemote 2 2 = some run
      ∧ run.listCalls = [⟨2, none⟩, ⟨2, some "t"⟩]
      ∧ run.describeCalls = [⟨["a", "b", "c"]⟩]
      ∧ ((threeIdRemote.DescribeClusters ⟨["a", "b", "c"]⟩).2 = none →
          ∃ clusters, run.ret = .ok clusters
            ∧ clusters.length
                = (threeIdRemote.DescribeClusters ⟨["a", "b", "c"]⟩).1.Clusters.length
            ∧ clusters = (threeIdRemote.DescribeClusters ⟨["a", "b", "c"]⟩).1.Clusters.map
                fun c => ⟨StringValue c.ClusterArn, StringValue c.ClusterName⟩)
      ∧ (∀ e, (threeIdRemote.DescribeClusters ⟨["a", "b", "c"]⟩).2 = some e →
          run.ret = .error e) :=
  ⟨rfl, getClusters_describes_once threeIdRemote 2 2 [⟨2, none⟩, ⟨2, some "t"⟩]
    ["a", "b", "c"] rfl⟩

/-- C7, counterexample. The listing of `describeDeniedRemote` yields the empty
identifier set, `getClusters` still issues a describe-clusters call (with the
empty set), and it returns the error of that call instead of an empty
collection. -/
theorem getClusters_empty_listing_error :
    listClustersLoop describeDeniedRemote 1 ⟨10, none⟩ [] [] = some ([⟨10, none⟩], .ok [])
    ∧ (getClusters describeDeniedRemote 10 1).map (fun run => run.describeCalls)
        = some [⟨[]⟩]
    ∧ (getClusters describeDeniedRemote 10 1).map (fun run => run.ret)
        = some (.error "AccessDenied") :=
  ⟨rfl, rfl, rfl⟩

/-! ## The orchestrator -/

/-- The launch loop starts one worker per entry it visits, with that entry's
role and island, after the workers already started. -/
theorem launchLoop_eq : ∀ (entries started : List (String × String)),
    launchLoop entries started = started ++ entries.map fun entry => (entry.2, entry.1) := by
  intro entries
  induction entries with
  | nil => intro started; simp [launchLoop]
  | cons kv rest ih =>
    intro started
    obtain ⟨k, v⟩ := kv
    simp only [launchLoop, ih, List.map_cons, List.append_assoc, List.singleton_append]

/-- The run of a list of workers that all return: it returns; the process is
ended exactly when one of them ends it; and when none does, the samples sent are
those of every worker, in start order. -/
theorem runWorkers_spec (w : String → String → Option WorkerRun) :
    ∀ (l : List (String × String)), (∀ ri ∈ l, (w ri.1 ri.2).isSome = true) →
      ∃ r, runWorkers w l = some r
        ∧ r.exited = l.any (fun ri => ((w ri.1 ri.2).map fun wr => wr.exited).getD false)
        ∧ (r.exited = false →
            r.sent = l.flatMap fun ri => ((w ri.1 ri.2).map fun wr => wr.sent).getD []) := by
  intro l
  induction l with
  | nil => intro _; exact ⟨⟨[], false⟩, rfl, rfl, fun _ => rfl⟩
  | cons ri rest ih =>
    intro h
    obtain ⟨role, island⟩ := ri
    have h0 := h (role, island) (List.mem_cons_self _ _)
    obtain ⟨r2, hr2, hex2, hsent2⟩ := ih (fun x hx => h x (List.mem_cons_of_mem _ hx))
    cases hw : w role island with
    | none => rw [hw] at h0; simp at h0
    | some wr =>
      cases hx : wr.exited with
      | true =>
        refine ⟨wr, by simp only [runWorkers, hw, hx, if_true], ?_, ?_⟩
        · simp [hw, hx]
        · intro hf; rw [hx] at hf; simp at hf
      | false =>
        refine ⟨⟨wr.sent ++ r2.sent, r2.exited⟩, ?_, ?_, ?_⟩
        · simp only [runWorkers, hw, hx, hr2]
          simp
        · simp only [List.any_cons, hw, Option.map_some', Option.getD_some, hx,
            Bool.false_or]
          exact hex2
        · intro hf
          simp only [List.flatMap_cons, hw, Option.map_some', Option.getD_some]
          rw [hsent2 hf]

/-- C6. When the tenant mapping `Config.Roles` has no entry, the launch loop of
`Collect` starts exactly one worker, with empty role and empty island;
otherwise it starts exactly one worker per entry of the mapping, with that
entry's role and island, and no other.  `Collect` runs these workers: when each
of them returns, `Collect` returns, the process is ended exactly when one of
them ends it, and when none does the samples sent are those of every started
worker. -/
theorem collect_started_workers (e : Exporter) (aws : AWS) (N fuel : Nat)
    (sched : String → ECSCluster → List Nat) :
    startedWorkers e
        = (if e.config.Roles = [] then [("", "")]
           else e.config.Roles.map fun entry => (entry.2, entry.1))
    ∧ (startedWorkers e).length = (if e.config.Roles = [] then 1 else e.config.Roles.length)
    ∧ ((∀ ri ∈ (if e.config.Roles = [] then [("", "")]
            else e.config.Roles.map fun entry => (entry.2, entry.1)),
          (worker e aws N fuel (sched ri.2) ri.1 ri.2).isSome = true) →
        ∃ r, Collect e aws N fuel sched = some r
          ∧ r.exited
              = (if e.config.Roles = [] then [("", "")]
                 else e.config.Roles.map fun entry => (entry.2, entry.1)).any
                  (fun ri => ((worker e aws N fuel (sched ri.2) ri.1 ri.2).map
                    fun wr => wr.exited).getD false)
          ∧ (r.exited = false →
              r.sent
                = (if e.config.Roles = [] then [("", "")]
                   else e.config.Roles.map fun entry => (entry.2, entry.1)).flatMap
                    fun ri => ((worker e aws N fuel (sched ri.2) ri.1 ri.2).map
                      fun wr => wr.sent).getD [])) := by
  have h : startedWorkers e
      = (if e.config.Roles = [] then [("", "")]
         else e.config.Roles.map fun entry => (entry.2, entry.1)) := by
    unfold startedWorkers islands
    rw [launchLoop_eq]
    by_cases hr : e.config.Roles = []
    · simp [hr]
    · have : e.config.Roles.length ≠ 0 := by simpa using hr
      simp [hr]
  refine ⟨h, ?_, ?_⟩
  · rw [h]
    split <;> simp
  · intro hret
    have := runWorkers_spec
      (fun role island => worker e aws N fuel (sched island) role island) _ hret
    unfold Collect
    rw [h]
    exact this

/-- Witness for `collect_started_workers`: with the roles `blue` and `green`
both reaching `threeIdRemote`, `Collect` starts the two workers, returns without
ending the process and sends the 41 samples of each. -/
theorem collect_started_workers_witness :
    startedWorkers (NewExporter "eu-west-1" ⟨[("blue", "roleA"), ("green", "roleB")]⟩)
        = [("roleA", "blue"), ("roleB", "green")]
    ∧ ∃ r, Collect (NewExporter "eu-west-1" ⟨[("blue", "roleA"), ("green", "roleB")]⟩)
          (singleRemoteAWS threeIdRemote) 2 2 (fun _ _ => []) = some r
        ∧ r.exited = false ∧ r.sent.length = 82 := by
  obtain ⟨h1, _, h3⟩ :=
    collect_started_workers (NewExporter "eu-west-1" ⟨[("blue", "roleA"), ("green", "roleB")]⟩)
      (singleRemoteAWS threeIdRemote) 2 2 (fun _ _ => [])
  refine ⟨h1.trans (by decide), ?_⟩
  obtain ⟨r, hr, hex, hsent⟩ := h3 (by decide)
  have hex2 : r.exited = false := hex.trans (by decide)
  refine ⟨r, hr, hex2, ?_⟩
  rw [hsent hex2]
  decide

/-! ## The service enumerator -/

/-- The join loop returns when at least as many results arrive as it receives. -/
theorem joinLoop_returns : ∀ (rs : List ecsResult) (n : Nat) (acc : List ECSService),
    n ≤ rs.length → ∃ p, joinLoop n rs acc = some p := by
  intro rs
  induction rs with
  | nil =>
    intro n acc hn
    have : n = 0 := by simpa using hn
    subst this
    exact ⟨_, rfl⟩
  | cons x rest ih =>
    intro n acc hn
    cases n with
    | zero => exact ⟨_, rfl⟩
    | succ n =>
      cases hx : x.err with
      | some e => exact ⟨(acc, some e), by simp only [joinLoop, hx]⟩
      | none =>
        obtain ⟨p, hp⟩ := ih n (acc ++ x.result) (by simpa using hn)
        exact ⟨p, by simp only [joinLoop, hx, hp]⟩

/-- Every batch goroutine sends at least one result. -/
theorem describeTask_ne_nil (client : ECS) (cluster : ECSCluster) (block : List String) :
    describeTask client cluster block ≠ [] := by
  unfold describeTask
  simp

/-- A batch goroutine whose call succeeds sends the converted services, once. -/
theorem describeTask_ok (client : ECS) (cluster : ECSCluster) (block : List String)
    (h : (client.DescribeServices ⟨block, cluster.ID⟩).2 = none) :
    describeTask client cluster block
      = [⟨(client.DescribeServices ⟨block, cluster.ID⟩).1.Services.map toECSService, none⟩] := by
  cases hd : client.DescribeServices ⟨block, cluster.ID⟩ with
  | mk resp err =>
    rw [hd] at h
    simp only at h
    subst h
    simp only [describeTask, hd, List.nil_append]

/-- A batch goroutine whose call fails sends the error first and then, for want
of a `return`, a second result. -/
theorem describeTask_err (client : ECS) (cluster : ECSCluster) (block : List String) (e : Err)
    (h : (client.DescribeServices ⟨block, cluster.ID⟩).2 = some e) :
    describeTask client cluster block
      = [⟨[], some e⟩,
         ⟨(client.DescribeServices ⟨block, cluster.ID⟩).1.Services.map toECSService, none⟩] := by
  cases hd : client.DescribeServices ⟨block, cluster.ID⟩ with
  | mk resp err =>
    rw [hd] at h
    simp only at h
    subst h
    simp only [describeTask, hd, List.singleton_append]

/-- Non-empty queues hold at least as many results as there are queues. -/
theorem length_le_flatten : ∀ (qs : List (List ecsResult)), (∀ q ∈ qs, q ≠ []) →
    qs.length ≤ qs.flatten.length := by
  intro qs
  induction qs with
  | nil => intro _; simp
  | cons q rest ih =>
    intro h
    have h1 : q ≠ [] := h q (List.mem_cons_self _ _)
    have h2 := ih (fun x hx => h x (List.mem_cons_of_mem _ hx))
    have h3 : 0 < q.length := List.length_pos.2 h1
    simp only [List.flatten_cons, List.length_append, List.length_cons]
    omega

/-- The value returned by `getServices` after a successful listing. -/
theorem getServices_of_join (client : ECS) (N : Nat) (cluster : ECSCluster) (fuel : Nat)
    (sched : List Nat) (calls : List ListServicesInput) (arns : List String)
    (services : List ECSService) (err : Option Err)
    (hlist : listServicesLoop client fuel ⟨cluster.ID, N, none⟩ [] [] = some (calls, .ok arns))
    (hjoin : joinLoop (serviceBlocks arns N).length
        (arrivalOrder (serviceBlocks arns N).length sched
          ((serviceBlocks arns N).map (describeTask client cluster))) [] = some (services, err)) :
    getServices client N cluster fuel sched
      = some ⟨calls, (serviceBlocks arns N).map (fun block => ⟨block, cluster.ID⟩),
          (serviceBlocks arns N).length,
          (serviceBlocks arns N).map (describeTask client cluster), services, err⟩ := by
  simp only [getServices, hlist, hjoin]

/-- While the join loop of `getServices` runs, as many results arrive as it
receives. -/
theorem arrival_full (client : ECS) (cluster : ECSCluster) (sched : List Nat)
    (bs : List (List String)) :
    (arrivalOrder bs.length sched (bs.map (describeTask client cluster))).length
      = bs.length := by
  have hq : ∀ q ∈ bs.map (describeTask client cluster), q ≠ [] := by
    intro q hq
    obtain ⟨b, _, rfl⟩ := List.mem_map.1 hq
    exact describeTask_ne_nil client cluster b
  have hlen := length_le_flatten _ hq
  rw [List.length_map] at hlen
  exact arrivalOrder_length bs.length sched _ hlen

/-- After a successful listing `getServices` returns, whatever the schedule and
whatever the batches answer. -/
theorem getServices_returns (client : ECS) (N : Nat) (cluster : ECSCluster) (fuel : Nat)
    (sched : List Nat) (calls : List ListServicesInput) (arns : List String)
    (hlist : listServicesLoop client fuel ⟨cluster.ID, N, none⟩ [] [] = some (calls, .ok arns)) :
    ∃ services err, getServices client N cluster fuel sched
      = some ⟨calls, (serviceBlocks arns N).map (fun block => ⟨block, cluster.ID⟩),
          (serviceBlocks arns N).length,
          (serviceBlocks arns N).map (describeTask client cluster), services, err⟩ := by
  have harr := arrival_full client cluster sched (serviceBlocks arns N)
  obtain ⟨⟨services, err⟩, hp⟩ := joinLoop_returns
    (arrivalOrder (serviceBlocks arns N).length sched
      ((serviceBlocks arns N).map (describeTask client cluster)))
    (serviceBlocks arns N).length [] (by rw [harr])
  exact ⟨services, err, getServices_of_join client N cluster fuel sched calls arns
    services err hlist hp⟩

/-- When every batch succeeds with one service per identifier, every goroutine
sends one result without error, and the services sent are as many as the
identifiers. -/
theorem sends_all_ok (client : ECS) (cluster : ECSCluster) : ∀ (bs : List (List String)),
    (∀ b ∈ bs, (client.DescribeServices ⟨b, cluster.ID⟩).2 = none
      ∧ (client.DescribeServices ⟨b, cluster.ID⟩).1.Services.length = b.length) →
    ((bs.map (describeTask client cluster)).flatten.flatMap fun x => x.result).length
        = bs.flatten.length
      ∧ (∀ x ∈ (bs.map (describeTask client cluster)).flatten, x.err = none)
      ∧ (bs.map (describeTask client cluster)).flatten.length = bs.length := by
  intro bs
  induction bs with
  | nil => intro _; simp
  | cons b rest ih =>
    intro h
    obtain ⟨h1, h2⟩ := h b (List.mem_cons_self _ _)
    obtain ⟨i1, i2, i3⟩ := ih (fun x hx => h x (List.mem_cons_of_mem _ hx))
    have hb := describeTask_ok client cluster b h1
    refine ⟨?_, ?_, ?_⟩
    · simp only [List.map_cons, List.flatten_cons, hb, List.singleton_append,
        List.flatMap_cons, List.length_append, List.length_map, h2, i1]
    · intro x hx
      simp only [List.map_cons, List.flatten_cons, hb, List.singleton_append,
        List.mem_cons] at hx
      rcases hx with rfl | hx
      · rfl
      · exact i2 x hx
    · simp only [List.map_cons, List.flatten_cons, hb, List.singleton_append,
        List.length_cons, i3]

/-- C4. For every list of `K` service identifiers returned by the listing phase
and every batch size `N ≥ 1`, `getServices` returns, whatever the order in which
the batch results arrive, after issuing exactly `ceil (K / N)` DescribeServices
calls, one per block of the batching loop; and when every call succeeds and
returns one service per requested identifier, it returns no error and a merged
collection of exactly `K` services. -/
theorem getServices_batches (client : ECS) (N : Nat) (cluster : ECSCluster) (fuel : Nat)
    (sched : List Nat) (calls : List ListServicesInput) (arns : List String) (hN : 1 ≤ N)
    (hlist : listServicesLoop client fuel ⟨cluster.ID, N, none⟩ [] [] = some (calls, .ok arns)) :
    ∃ run, getServices client N cluster fuel sched = some run
      ∧ run.describeCalls = (serviceBlocks arns N).map (fun block => ⟨block, cluster.ID⟩)
      ∧ run.describeCalls.length = (arns.length + N - 1) / N
      ∧ ((∀ call ∈ run.describeCalls, (client.DescribeServices call).2 = none
            ∧ (client.DescribeServices call).1.Services.length = call.Services.length) →
          run.err = none ∧ run.services.length = arns.length) := by
  obtain ⟨services, err, hrun⟩ := getServices_returns client N cluster fuel sched calls arns hlist
  refine ⟨_, hrun, rfl, ?_, ?_⟩
  · show ((serviceBlocks arns N).map _).length = _
    rw [List.length_map, serviceBlocks_length arns N hN]
  · intro hall
    have hall2 : ∀ b ∈ serviceBlocks arns N,
        (client.DescribeServices ⟨b, cluster.ID⟩).2 = none
        ∧ (client.DescribeServices ⟨b, cluster.ID⟩).1.Services.length = b.length := by
      intro b hb
      exact hall ⟨b, cluster.ID⟩ (List.mem_map.2 ⟨b, hb, rfl⟩)
    obtain ⟨s1, s2, s3⟩ := sends_all_ok client cluster _ hall2
    have hperm := arrivalOrder_perm (serviceBlocks arns N).length sched
      ((serviceBlocks arns N).map (describeTask client cluster)) (by rw [s3])
    have hok : ∀ x ∈ arrivalOrder (serviceBlocks arns N).length sched
        ((serviceBlocks arns N).map (describeTask client cluster)), x.err = none :=
      fun x hx => s2 x (hperm.mem_iff.1 hx)
    have hlen : (arrivalOrder (serviceBlocks arns N).length sched
        ((serviceBlocks arns N).map (describeTask client cluster))).length
          = (serviceBlocks arns N).length := by
      rw [hperm.length_eq, s3]
    have hjoin := joinLoop_ok _ (serviceBlocks arns N).length [] hok (by rw [hlen])
    rw [List.take_of_length_le (by rw [hlen]), List.nil_append] at hjoin
    have hrun2 := getServices_of_join client N cluster fuel sched calls arns _ _ hlist hjoin
    rw [hrun] at hrun2
    simp only [Option.some.injEq, GetServicesRun.mk.injEq, true_and] at hrun2
    obtain ⟨hs, he⟩ := hrun2
    refine ⟨he, ?_⟩
    show services.length = arns.length
    rw [hs, (hperm.flatMap_right fun x => x.result).length_eq, s1,
      serviceBlocks_flatten arns N hN]

/-- Witness for `getServices_batches`: three identifiers in batches of two, the
second batch served first. -/
theorem getServices_batches_witness :
    listServicesLoop threeIdRemote 2 ⟨"a", 2, none⟩ [] []
        = some ([⟨"a", 2, none⟩, ⟨"a", 2, some "t"⟩], .ok ["a", "b", "c"])
    ∧ ∃ run, getServices threeIdRemote 2 ⟨"a", "a"⟩ 2 [1] = some run
      ∧ run.describeCalls = (serviceBlocks ["a", "b", "c"] 2).map (fun block => ⟨block, "a"⟩)
      ∧ run.describeCalls.length = (["a", "b", "c"].length + 2 - 1) / 2
      ∧ ((∀ call ∈ run.describeCalls, (threeIdRemote.DescribeServices call).2 = none
            ∧ (threeIdRemote.DescribeServices call).1.Services.length = call.Services.length) →
          run.err = none ∧ run.services.length = ["a", "b", "c"].length) :=
  ⟨rfl, getServices_batches threeIdRemote 2 ⟨"a", "a"⟩ 2 [1]
    [⟨"a", 2, none⟩, ⟨"a", 2, some "t"⟩] ["a", "b", "c"] (by decide) rfl⟩

/-! ## Failed batches -/

/-- The error-free head of the sends of a batch goroutine: its single result
when the call succeeds, nothing when the call fails. -/
theorem okHead_length (client : ECS) (cluster : ECSCluster) (b : List String) :
    ((describeTask client cluster b).takeWhile fun x => x.err.isNone).length
      = if (client.DescribeServices ⟨b, cluster.ID⟩).2 = none then 1 else 0 := by
  cases h : (client.DescribeServices ⟨b, cluster.ID⟩).2 with
  | none => rw [describeTask_ok client cluster b h]; simp
  | some e => rw [describeTask_err client cluster b e h]; simp

/-- The error-free heads hold at most one result per batch. -/
theorem okHeads_le (client : ECS) (cluster : ECSCluster) : ∀ (bs : List (List String)),
    (((bs.map (describeTask client cluster)).map
      (List.takeWhile fun x => x.err.isNone)).flatten).length ≤ bs.length := by
  intro bs
  induction bs with
  | nil => simp
  | cons b rest ih =>
    have hb := okHead_length client cluster b
    simp only [List.map_cons, List.flatten_cons, List.length_append, List.length_cons, hb]
    split <;> omega

/-- With a failed batch, the error-free heads hold fewer results than there are
batches. -/
theorem okHeads_lt (client : ECS) (cluster : ECSCluster) : ∀ (bs : List (List String)),
    (∃ b ∈ bs, (client.DescribeServices ⟨b, cluster.ID⟩).2 ≠ none) →
    (((bs.map (describeTask client cluster)).map
      (List.takeWhile fun x => x.err.isNone)).flatten).length < bs.length := by
  intro bs
  induction bs with
  | nil => intro h; obtain ⟨b, hb, _⟩ := h; simp at hb
  | cons b rest ih =>
    intro h
    have hb := okHead_length client cluster b
    have hle := okHeads_le client cluster rest
    simp only [List.map_cons, List.flatten_cons, List.length_append, List.length_cons, hb]
    obtain ⟨b2, hb2, hfail⟩ := h
    rcases List.mem_cons.1 hb2 with rfl | hmem
    · rw [if_neg hfail]; omega
    · have := ih ⟨b2, hmem, hfail⟩
      split <;> omega

/-- If a describe batch fails, `getServices` returns an error, whatever the
order in which the batch results arrive. -/
theorem getServices_fails (client : ECS) (N : Nat) (cluster : ECSCluster) (fuel : Nat)
    (sched : List Nat) (calls : List ListServicesInput) (arns : List String)
    (hlist : listServicesLoop client fuel ⟨cluster.ID, N, none⟩ [] [] = some (calls, .ok arns))
    (hfail : ∃ b ∈ serviceBlocks arns N, (client.DescribeServices ⟨b, cluster.ID⟩).2 ≠ none) :
    ∃ run e, getServices client N cluster fuel sched = some run ∧ run.err = some e := by
  have harr := arrival_full client cluster sched (serviceBlocks arns N)
  have hlt := okHeads_lt client cluster _ hfail
  rcases split_first_error (arrivalOrder (serviceBlocks arns N).length sched
      ((serviceBlocks arns N).map (describeTask client cluster))) with hall | hsplit
  · have := arrivalOrder_ok_le _ sched _ hall
    omega
  · obtain ⟨pre, r, e, post, hsplit, hpre⟩ := hsplit
    have hlen : pre.length < (serviceBlocks arns N).length := by
      have := congrArg List.length hsplit
      rw [harr, List.length_append, List.length_cons] at this
      omega
    have hjoin := joinLoop_err pre (serviceBlocks arns N).length [] r e post hpre hlen
    rw [← hsplit] at hjoin
    exact ⟨_, e, getServices_of_join client N cluster fuel sched calls arns _ _ hlist hjoin, rfl⟩

/-! ## The tenant worker -/

/-- A cluster goroutine whose `getServices` call succeeds sends the service count
and the four samples of every service. -/
theorem clusterTask_of_ok (e : Exporter) (client : ECS) (N fuel : Nat) (sched : List Nat)
    (island : String) (cluster : ECSCluster) (run : GetServicesRun)
    (h : getServices client N cluster fuel sched = some run) (herr : run.err = none) :
    clusterTask e client N fuel sched island cluster
      = some (⟨serviceCount, (run.services.length : Int), [e.region, island, cluster.Name]⟩
          :: run.services.flatMap (serviceMetrics e island cluster)) := by
  simp only [clusterTask, h, herr, MustNewConstMetric]

/-- A cluster goroutine whose `getServices` call returns an error sends nothing. -/
theorem clusterTask_of_err (e : Exporter) (client : ECS) (N fuel : Nat) (sched : List Nat)
    (island : String) (cluster : ECSCluster) (run : GetServicesRun) (x : Err)
    (h : getServices client N cluster fuel sched = some run) (herr : run.err = some x) :
    clusterTask e client N fuel sched island cluster = some [] := by
  simp only [clusterTask, h, herr]

/-- When the listing of its services finishes, `getServices` returns. -/
theorem getServices_isSome (client : ECS) (N fuel : Nat) (sched : List Nat)
    (cluster : ECSCluster)
    (h : (listServicesLoop client fuel ⟨cluster.ID, N, none⟩ [] []).isSome = true) :
    ∃ run, getServices client N cluster fuel sched = some run := by
  cases hl : listServicesLoop client fuel ⟨cluster.ID, N, none⟩ [] [] with
  | none => rw [hl] at h; simp at h
  | some p =>
    obtain ⟨calls, r⟩ := p
    cases r with
    | error err => exact ⟨⟨calls, [], 0, [], [], some err⟩, by simp only [getServices, hl]⟩
    | ok arns =>
      obtain ⟨services, err, hrun⟩ :=
        getServices_returns client N cluster fuel sched calls arns hl
      exact ⟨_, hrun⟩

/-- When the listing of its services finishes, a cluster goroutine returns. -/
theorem clusterTask_isSome (e : Exporter) (client : ECS) (N fuel : Nat) (sched : List Nat)
    (island : String) (cluster : ECSCluster)
    (h : (listServicesLoop client fuel ⟨cluster.ID, N, none⟩ [] []).isSome = true) :
    (clusterTask e client N fuel sched island cluster).isSome = true := by
  obtain ⟨run, hrun⟩ := getServices_isSome client N fuel sched cluster h
  cases herr : run.err with
  | none => rw [clusterTask_of_ok e client N fuel sched island cluster run hrun herr]; rfl
  | some x => rw [clusterTask_of_err e client N fuel sched island cluster run x hrun herr]; rfl

/-- Every sample of a cluster goroutine carries the cluster name as its third
label value. -/
theorem clusterTask_labels (e : Exporter) (client : ECS) (N fuel : Nat) (sched : List Nat)
    (island : String) (cluster : ECSCluster) (ms : List Metric)
    (h : clusterTask e client N fuel sched island cluster = some ms) :
    ∀ m ∈ ms, m.labelValues.get? 2 = some cluster.Name := by
  intro m hm
  cases hg : getServices client N cluster fuel sched with
  | none => simp [clusterTask, hg] at h
  | some run =>
    cases herr : run.err with
    | some x =>
      rw [clusterTask_of_err e client N fuel sched island cluster run x hg herr] at h
      simp only [Option.some.injEq] at h
      subst h
      simp at hm
    | none =>
      rw [clusterTask_of_ok e client N fuel sched island cluster run hg herr] at h
      simp only [Option.some.injEq] at h
      subst h
      rcases List.mem_cons.1 hm with rfl | hm
      · rfl
      · obtain ⟨s, _, hs⟩ := List.mem_flatMap.1 hm
        simp only [serviceMetrics, MustNewConstMetric, List.mem_cons, List.mem_singleton,
          List.not_mem_nil, or_false] at hs
        rcases hs with rfl | rfl | rfl | rfl <;> rfl

/-- The join of goroutines that all return lists their samples in spawn order. -/
theorem waitAll_map {α : Type} (f : α → Option (List Metric)) : ∀ (l : List α),
    (∀ c ∈ l, (f c).isSome = true) →
      waitAll (l.map f) = some (l.flatMap fun c => (f c).getD []) := by
  intro l
  induction l with
  | nil => intro _; rfl
  | cons c rest ih =>
    intro h
    have hc := h c (List.mem_cons_self _ _)
    have hrest := ih (fun x hx => h x (List.mem_cons_of_mem _ hx))
    cases hf : f c with
    | none => rw [hf] at hc; simp at hc
    | some ms =>
      simp only [List.map_cons, hf, waitAll, hrest, List.flatMap_cons, Option.getD_some]

/-- The run of `worker` once the client is created, the clusters are enumerated
and every cluster goroutine returns. -/
theorem worker_of_clusters (e : Exporter) (aws : AWS) (N fuel : Nat)
    (sched : ECSCluster → List Nat) (role island : String) (client : ECS)
    (run : GetClustersRun) (clusters : List ECSCluster)
    (hclient : (if role == "" && island == "" then getClient e aws role
      else getSTSClient e aws role) = .ok client)
    (hrun : getClusters client N fuel = some run) (hret : run.ret = .ok clusters)
    (hall : ∀ c ∈ clusters,
      (clusterTask e client N fuel (sched c) island c).isSome = true) :
    worker e aws N fuel sched role island
      = some ⟨⟨up, 1, [e.region, island]⟩
          :: ⟨clusterCount, (clusters.length : Int), [e.region, island]⟩
          :: clusters.flatMap (fun c => (clusterTask e client N fuel (sched c) island c).getD []),
          false⟩ := by
  have hw := waitAll_map (fun c => clusterTask e client N fuel (sched c) island c) clusters hall
  simp only [worker, hclient, hrun, hret, hw, MustNewConstMetric]

/-- What `batchFails` decides. -/
theorem batchFails_spec (client : ECS) (N fuel : Nat) (cluster : ECSCluster)
    (h : batchFails client N fuel cluster = true) :
    ∃ calls arns,
      listServicesLoop client fuel ⟨cluster.ID, N, none⟩ [] [] = some (calls, .ok arns)
      ∧ ∃ b ∈ serviceBlocks arns N, (client.DescribeServices ⟨b, cluster.ID⟩).2 ≠ none := by
  unfold batchFails at h
  cases hl : listServicesLoop client fuel ⟨cluster.ID, N, none⟩ [] [] with
  | none => simp [hl] at h
  | some p =>
    obtain ⟨calls, r⟩ := p
    cases r with
    | error err => simp [hl] at h
    | ok arns =>
      simp only [hl, List.any_eq_true] at h
      obtain ⟨b, hb, hsome⟩ := h
      refine ⟨calls, arns, rfl, b, hb, ?_⟩
      intro hnone
      rw [hnone] at hsome
      simp at hsome

/-- A cluster goroutine with a failed describe batch sends nothing. -/
theorem clusterTask_of_batchFails (e : Exporter) (client : ECS) (N fuel : Nat)
    (sched : List Nat) (island : String) (cluster : ECSCluster)
    (h : batchFails client N fuel cluster = true) :
    clusterTask e client N fuel sched island cluster = some [] := by
  obtain ⟨calls, arns, hl, hfail⟩ := batchFails_spec client N fuel cluster h
  obtain ⟨run, x, hrun, herr⟩ := getServices_fails client N cluster fuel sched calls arns hl hfail
  exact clusterTask_of_err e client N fuel sched island cluster run x hrun herr

/-- C2. For every tenant whose client is created, whose cluster enumeration
succeeds and whose service listings finish: `worker` returns without ending the
process, having sent `up = 1`, `clusters_total` and then what each cluster
goroutine sent (`emitted`).  A cluster with a failed describe-services batch
sends nothing, whatever the arrival order of the batch results, so that no
sample of the output carries its name (when no sibling without a failed batch
shares the name); every cluster whose `getServices` call succeeds sends its
`services_total` and the four samples of each of its services. -/
theorem worker_failed_batch (e : Exporter) (aws : AWS) (N fuel : Nat)
    (sched : ECSCluster → List Nat) (role island : String) (client : ECS)
    (run : GetClustersRun) (clusters : List ECSCluster)
    (hclient : (if role == "" && island == "" then getClient e aws role
      else getSTSClient e aws role) = .ok client)
    (hrun : getClusters client N fuel = some run) (hret : run.ret = .ok clusters)
    (hfin : ∀ c ∈ clusters,
      (listServicesLoop client fuel ⟨c.ID, N, none⟩ [] []).isSome = true) :
    ∃ (out : List Metric) (emitted : ECSCluster → List Metric),
      worker e aws N fuel sched role island = some ⟨out, false⟩
      ∧ out = ⟨up, 1, [e.region, island]⟩
          :: ⟨clusterCount, (clusters.length : Int), [e.region, island]⟩
          :: clusters.flatMap emitted
      ∧ (∀ c ∈ clusters, batchFails client N fuel c = true → emitted c = [])
      ∧ (∀ c ∈ clusters, batchFails client N fuel c = true →
          (∀ c2 ∈ clusters, c2.Name = c.Name → batchFails client N fuel c2 = true) →
          ∀ m ∈ out, m.labelValues.get? 2 ≠ some c.Name)
      ∧ (∀ c ∈ clusters, ∀ r, getServices client N c fuel (sched c) = some r → r.err = none →
          emitted c
            = ⟨serviceCount, (r.services.length : Int), [e.region, island, c.Name]⟩
              :: r.services.flatMap fun s =>
                [⟨serviceDesired, s.DesiredTasks, [e.region, island, c.Name, s.Name]⟩,
                 ⟨servicePending, s.PendingTasks, [e.region, island, c.Name, s.Name]⟩,
                 ⟨serviceRunning, s.RunningTasks, [e.region, island, c.Name, s.Name]⟩,
                 ⟨serviceDeployments, s.Deployments, [e.region, island, c.Name, s.Name]⟩]) := by
  have hall : ∀ c ∈ clusters,
      (clusterTask e client N fuel (sched c) island c).isSome = true :=
    fun c hc => clusterTask_isSome e client N fuel (sched c) island c (hfin c hc)
  have hempty : ∀ c ∈ clusters, batchFails client N fuel c = true →
      (clusterTask e client N fuel (sched c) island c).getD [] = [] := by
    intro c _ hf
    rw [clusterTask_of_batchFails e client N fuel (sched c) island c hf]
    rfl
  refine ⟨_, fun c => (clusterTask e client N fuel (sched c) island c).getD [],
    worker_of_clusters e aws N fuel sched role island client run clusters hclient hrun hret hall,
    rfl, hempty, ?_, ?_⟩
  · intro c _ hf hname m hm
    rcases List.mem_cons.1 hm with rfl | hm
    · simp
    rcases List.mem_cons.1 hm with rfl | hm
    · simp
    obtain ⟨c2, hc2, hm2⟩ := List.mem_flatMap.1 hm
    intro hlabel
    cases ht : clusterTask e client N fuel (sched c2) island c2 with
    | none => rw [ht] at hm2; simp at hm2
    | some ms =>
      rw [ht] at hm2
      have hl := clusterTask_labels e client N fuel (sched c2) island c2 ms ht m hm2
      rw [hl] at hlabel
      have hf2 := hname c2 hc2 (Option.some.inj hlabel)
      have := hempty c2 hc2 hf2
      rw [ht] at this
      simp only [Option.getD_some] at this hm2
      rw [this] at hm2
      simp at hm2
  · intro c _ r hr herr
    show (clusterTask e client N fuel (sched c) island c).getD [] = _
    rw [clusterTask_of_ok e client N fuel (sched c) island c r hr herr]
    rfl

/-- Witness for `worker_failed_batch`: one cluster `prod` with 25 services and
page bound 10 gives batches of 10, 10 and 5; the second batch fails, and the
output is `up = 1` and `clusters_total = 1` only. -/
theorem worker_failed_batch_witness :
    (serviceBlocks prodServiceArns maxResults).map List.length = [10, 10, 5]
    ∧ batchFails prodRemote maxResults 3 ⟨"arn:prod", "prod"⟩ = true
    ∧ worker (NewExporter "eu-west-1" ⟨[]⟩) (singleRemoteAWS prodRemote) maxResults 3
        (fun _ => [2, 0]) "" ""
      = some ⟨[⟨up, 1, ["eu-west-1", ""]⟩, ⟨clusterCount, 1, ["eu-west-1", ""]⟩], false⟩ := by
  refine ⟨by decide, by decide, ?_⟩
  obtain ⟨out, emitted, hw, hout, hfail, _, _⟩ :=
    worker_failed_batch (NewExporter "eu-west-1" ⟨[]⟩) (singleRemoteAWS prodRemote) maxResults 3
      (fun _ => [2, 0]) "" "" prodRemote
      ⟨[⟨10, none⟩], [⟨["arn:prod"]⟩], .ok [⟨"arn:prod", "prod"⟩]⟩ [⟨"arn:prod", "prod"⟩]
      rfl rfl rfl (by decide)
  have h0 := hfail ⟨"arn:prod", "prod"⟩ (List.mem_singleton.2 rfl) (by decide)
  rw [hw, hout]
  simp only [List.flatMap_cons, List.flatMap_nil, h0, List.append_nil]
  rfl

/-- C1. For every tenant whose client creation, cluster enumeration and every
per-cluster service enumeration succeed (`services c` being what `getServices`
returns for cluster `c`), the samples sent by `worker` are, up to order:
`up = 1` and `clusters_total = len clusters` labelled (region, island); per
cluster one `services_total = len (services c)` labelled (region, island,
cluster name); per service the four samples carrying `DesiredTasks`,
`PendingTasks`, `RunningTasks` and `Deployments`, labelled (region, island,
cluster name, service name).  They are `2 + sum (1 + 4 * len (services c))`
samples, each with as many label values as its descriptor declares, and the
process is not ended. -/
theorem worker_sample_set (e : Exporter) (aws : AWS) (N fuel : Nat)
    (sched : ECSCluster → List Nat) (role island : String) (client : ECS)
    (run : GetClustersRun) (clusters : List ECSCluster)
    (services : ECSCluster → List ECSService)
    (hclient : (if role == "" && island == "" then getClient e aws role
      else getSTSClient e aws role) = .ok client)
    (hrun : getClusters client N fuel = some run) (hret : run.ret = .ok clusters)
    (hsvc : ∀ c ∈ clusters, ∃ r, getServices client N c fuel (sched c) = some r
      ∧ r.err = none ∧ r.services = services c) :
    ∃ out : List Metric,
      worker e aws N fuel sched role island = some ⟨out, false⟩
      ∧ out.Perm
          ([⟨up, 1, [e.region, island]⟩,
            ⟨clusterCount, (clusters.length : Int), [e.region, island]⟩]
            ++ clusters.flatMap fun c =>
              ⟨serviceCount, ((services c).length : Int), [e.region, island, c.Name]⟩
                :: (services c).flatMap fun s =>
                  [⟨serviceDesired, s.DesiredTasks, [e.region, island, c.Name, s.Name]⟩,
                   ⟨servicePending, s.PendingTasks, [e.region, island, c.Name, s.Name]⟩,
                   ⟨serviceRunning, s.RunningTasks, [e.region, island, c.Name, s.Name]⟩,
                   ⟨serviceDeployments, s.Deployments, [e.region, island, c.Name, s.Name]⟩])
      ∧ out.length = 2 + (clusters.map fun c => 1 + 4 * (services c).length).sum
      ∧ (∀ m ∈ out, m.labelValues.length = m.desc.variableLabels.length)
      ∧ [up, clusterCount, serviceCount, serviceDesired, servicePending, serviceRunning,
          serviceDeployments].map Desc.fqName
          = ["ecs_up", "ecs_clusters_total", "ecs_services_total",
              "ecs_service_desired_tasks_total", "ecs_service_pending_tasks_total",
              "ecs_service_running_tasks_total", "ecs_service_deployments_total"] := by
  have htask : ∀ c ∈ clusters, clusterTask e client N fuel (sched c) island c
      = some (⟨serviceCount, ((services c).length : Int), [e.region, island, c.Name]⟩
          :: (services c).flatMap (serviceMetrics e island c)) := by
    intro c hc
    obtain ⟨r, hr, herr, hs⟩ := hsvc c hc
    rw [clusterTask_of_ok e client N fuel (sched c) island c r hr herr, hs]
  have hall : ∀ c ∈ clusters,
      (clusterTask e client N fuel (sched c) island c).isSome = true := by
    intro c hc
    rw [htask c hc]
    rfl
  have hw := worker_of_clusters e aws N fuel sched role island client run clusters
    hclient hrun hret hall
  have hflat : (clusters.flatMap fun c =>
        (clusterTask e client N fuel (sched c) island c).getD [])
      = clusters.flatMap fun c =>
          ⟨serviceCount, ((services c).length : Int), [e.region, island, c.Name]⟩
            :: (services c).flatMap (serviceMetrics e island c) := by
    apply List.flatMap_congr
    intro c hc
    rw [htask c hc]
    rfl
  rw [hflat] at hw
  refine ⟨_, hw, List.Perm.refl _, ?_, ?_, by decide⟩
  · simp only [List.length_cons, List.length_flatMap]
    have : ∀ (l : List ECSCluster),
        (l.map (List.length ∘ fun c =>
          (⟨serviceCount, ((services c).length : Int), [e.region, island, c.Name]⟩ : Metric)
            :: (services c).flatMap (serviceMetrics e island c))).sum
        = (l.map fun c => 1 + 4 * (services c).length).sum := by
      intro l
      congr 1
      apply List.map_congr_left
      intro c _
      have h4 : ∀ (ss : List ECSService),
          (ss.flatMap (serviceMetrics e island c)).length = 4 * ss.length := by
        intro ss
        induction ss with
        | nil => rfl
        | cons s rest ih =>
          rw [List.flatMap_cons, List.length_append, ih]
          simp only [serviceMetrics, List.length_cons, List.length_nil]
          omega
      simp only [Function.comp, List.length_cons, h4]
      omega
    rw [this]
    omega
  · intro m hm
    rcases List.mem_cons.1 hm with rfl | hm
    · rfl
    rcases List.mem_cons.1 hm with rfl | hm
    · rfl
    obtain ⟨c, _, hm⟩ := List.mem_flatMap.1 hm
    rcases List.mem_cons.1 hm with rfl | hm
    · rfl
    obtain ⟨s, _, hs⟩ := List.mem_flatMap.1 hm
    simp only [serviceMetrics, MustNewConstMetric, List.mem_cons, List.mem_singleton,
      List.not_mem_nil, or_false] at hs
    rcases hs with rfl | rfl | rfl | rfl <;> rfl

/-- Witness for `worker_sample_set`: the anonymous tenant against a remote with
three clusters of three services each sends `2 + 3 * (1 + 4 * 3)` samples. -/
theorem worker_sample_set_witness :
    ∃ out : List Metric,
      worker (NewExporter "eu-west-1" ⟨[]⟩) (singleRemoteAWS threeIdRemote) 2 2
          (fun _ => [1]) "" "" = some ⟨out, false⟩
      ∧ out.length = 41 := by
  obtain ⟨out, hw, _, hlen, _, _⟩ :=
    worker_sample_set (NewExporter "eu-west-1" ⟨[]⟩) (singleRemoteAWS threeIdRemote) 2 2
      (fun _ => [1]) "" "" threeIdRemote
      ⟨[⟨2, none⟩, ⟨2, some "t"⟩], [⟨["a", "b", "c"]⟩],
        .ok [⟨"a", "a"⟩, ⟨"b", "b"⟩, ⟨"c", "c"⟩]⟩
      [⟨"a", "a"⟩, ⟨"b", "b"⟩, ⟨"c", "c"⟩]
      (fun _ => [⟨"c", "c", 0, 1, 1, 0⟩, ⟨"a", "a", 0, 1, 1, 0⟩, ⟨"b", "b", 0, 1, 1, 0⟩])
      rfl rfl rfl
      (by
        intro c hc
        simp only [List.mem_cons, List.mem_singleton, List.not_mem_nil, or_false] at hc
        rcases hc with rfl | rfl | rfl
        · exact ⟨_, rfl, rfl, rfl⟩
        · exact ⟨_, rfl, rfl, rfl⟩
        · exact ⟨_, rfl, rfl, rfl⟩)
  exact ⟨out, hw, hlen.trans (by decide)⟩

/-! ## Behaviour at the failing inputs -/

/-- C3, the code at the failing input. With tenants `blue` (role `roleA`, whose
cluster listing fails) and `green` (role `roleB`): the worker of `blue` sends
`up = 0` and then ends the process through `log.Fatalf`; `Collect` ends with the
process terminated, in either order of the two tenants, although the worker of
`green` alone sends `up = 1` and returns. -/
theorem worker_cluster_failure_exits :
    worker (NewExporter "eu-west-1" ⟨[("blue", "roleA"), ("green", "roleB")]⟩) twoTenantAWS
        2 2 (fun _ => []) "roleA" "blue"
      = some ⟨[⟨up, 0, ["eu-west-1", "blue"]⟩], true⟩
    ∧ Collect (NewExporter "eu-west-1" ⟨[("blue", "roleA"), ("green", "roleB")]⟩) twoTenantAWS
        2 2 (fun _ _ => [])
      = some ⟨[⟨up, 0, ["eu-west-1", "blue"]⟩], true⟩
    ∧ (Collect (NewExporter "eu-west-1" ⟨[("green", "roleB"), ("blue", "roleA")]⟩)
        twoTenantAWS 2 2 (fun _ _ => [])).map (fun r => r.exited) = some true
    ∧ (worker (NewExporter "eu-west-1" ⟨[("blue", "roleA"), ("green", "roleB")]⟩)
        twoTenantAWS 2 2 (fun _ => []) "roleB" "green").map
          (fun r => (r.sent.head?, r.sent.length, r.exited))
      = some (some ⟨up, 1, ["eu-west-1", "green"]⟩, 41, false) := by
  refine ⟨by decide, by decide, by decide, by decide⟩

/-- C10, the code at the failing input. The batch goroutine of the second block
of cluster `prod`, whose DescribeServices call fails, sends two results on
`resC`: the error result and then a result with no error; so the three batch
goroutines counted in `counter` send four results in all. -/
theorem describeTask_failure_sends_twice :
    (prodRemote.DescribeServices ⟨slice prodServiceArns 10 20, "arn:prod"⟩).2
        = some "ThrottlingException"
    ∧ describeTask prodRemote ⟨"arn:prod", "prod"⟩ (slice prodServiceArns 10 20)
        = [⟨[], some "ThrottlingException"⟩, ⟨[], none⟩]
    ∧ (getServices prodRemote maxResults ⟨"arn:prod", "prod"⟩ 3 []).map
          (fun r => (r.counter, r.sends.map List.length, r.sends.flatten.length))
        = some (3, [1, 2, 1], 4) := by
  refine ⟨by decide, by decide, by decide⟩

end EcsExporter
